import Mathlib

/-!
Verification development for the OpenCEP tree-based evaluation mechanism.

The Python sources embedded here are:
  * `src/misc/Utils.py` — `find_partial_match_by_timestamp`, `merge`,
    `merge_according_to`, `is_sorted`, `get_index`,
    `find_positive_events_before`;
  * `src/base/Formula.py` — the predicate AST (terms and formulas);
  * `src/evaluation/TreeBasedEvaluationMechanism.py` — the node hierarchy
    (`Node`, `LeafNode`, `InternalNode`, `SeqNode`, `AndNode`,
    `InternalNegationNode`, `FirstChanceNode`, `PostProcessingNode`),
    the `Tree` builders for both negation modes, and
    `TreeBasedEvaluationMechanism.eval`.

Modelling conventions.  Python `datetime` timestamps are embedded as `Int`
(the code only compares them and adds/subtracts `timedelta`s, so any
linearly ordered additive model is faithful); `timedelta` sliding windows
are `Option Int` with `none` standing for `timedelta.max` (unbounded).
Event payloads are embedded as `Int` and `IdentifierTerm.getattr_func` as
the identity, since the claims never depend on the payload structure and
the predicate collaborator is opaque in the specification.  Python
exceptions are `Except Unit` results (or a `stuck` flag on the interpreter
state).  The object graph of the evaluation tree, which Python mutates
through parent pointers, is embedded as an arena: a list of node records
indexed by node id, with every recursive traversal taking explicit fuel
(every run below uses fuel that is checked to suffice, i.e. the `stuck`
flag stays false).
-/

namespace OpenCEP

/-- An input event (`base/Event.py` is not under `src/`).
Modelled from the spec: `Event — (event_type, timestamp, payload,
arrival_index)`, immutable once ingested.  The payload is embedded as an
`Int` attribute value. -/
structure Event where
  eventType : String
  timestamp : Int
  payload : Int
  arrivalIndex : Int := 0
deriving DecidableEq, Repr

/-- A pattern placeholder (`QItem`; `base/PatternStructure.py` is not under
`src/`).  Modelled from the spec: `PlaceholderSpec (QItem) — (event_type,
name, pattern_position)`; `get_event_index` returns the pattern position. -/
structure QItem where
  eventType : String
  name : String
  index : Nat
deriving DecidableEq, Repr

/-- The smallest timestamp of a list of events (0 for the empty list, which
never arises: partial matches are built from non-empty event lists). -/
def minTimestamp : List Event → Int
  | [] => 0
  | e :: es => es.foldl (fun acc x => min acc x.timestamp) e.timestamp

/-- The largest timestamp of a list of events. -/
def maxTimestamp : List Event → Int
  | [] => 0
  | e :: es => es.foldl (fun acc x => max acc x.timestamp) e.timestamp

/-- A partial match (`evaluation/PartialMatch.py` is not under `src/`).
Modelled from the spec: `PartialMatch — (events, first_timestamp,
last_timestamp)` where `first_timestamp = min(e.timestamp)` and
`last_timestamp = max(e.timestamp)`, computed at construction, immutable. -/
structure PartialMatch where
  events : List Event
  firstTimestamp : Int
  lastTimestamp : Int
deriving DecidableEq, Repr

/-- The `PartialMatch` constructor: computes both timestamps from the
event list (spec §4.1). -/
def mkPartialMatch (events : List Event) : PartialMatch :=
  { events := events
    firstTimestamp := minTimestamp events
    lastTimestamp := maxTimestamp events }

/-- A full pattern match handed to the output stream
(`base/PatternMatch.py` is not under `src/`). Modelled from the spec: a
sink accepting `PatternMatch(events : list of Event)`. -/
structure PatternMatch where
  events : List Event
deriving DecidableEq, Repr

/-- An event definition entry: `(arrival_slot, placeholder)` as carried in
each node's `_event_defs` list (spec §3, `EventDef`). -/
abbrev EventDef := Nat × QItem

/-- Python list indexing with negative-index wraparound: `l[i]` is
`l[len(l) + i]` for `i < 0`; `none` models an `IndexError`. -/
def pyGet {α : Type} (l : List α) (i : Int) : Option α :=
  if i < 0 then
    if (l.length : Int) + i < 0 then none else l.get? ((l.length : Int) + i).toNat
  else l.get? i.toNat

/-- The binary-search loop of `find_partial_match_by_timestamp`
(`src/misc/Utils.py` lines 33–47): `start`/`end` move exactly as in the
source; leaving the loop (Python: `start > end`, including `end = -1`
reached from `mid = 0`) falls through to the `raise`, embedded as
`.error ()`, as is an out-of-range index access.  The extra `fuel`
argument only bounds the iteration count so the recursion is structural;
each iteration strictly shrinks `end + 1 - start`, so the `length + 1`
fuel the caller supplies can never run out.  Note Python's
`partial_matches[mid - 1]` at `mid = 0` reads index `-1`, the last
element, which `pyGet` reproduces. -/
def findAux (pms : List PartialMatch) (ts : Int) : Nat → Nat → Nat → Except Unit Nat
  | 0, _, _ => .error ()
  | fuel + 1, start, en =>
    if start ≤ en then
      match pyGet pms (((start + en) / 2 : Nat) : Int),
            pyGet pms ((((start + en) / 2 : Nat) : Int) - 1) with
      | some m, some m' =>
        if m'.firstTimestamp < ts ∧ ts ≤ m.firstTimestamp then .ok ((start + en) / 2)
        else if ts > m.firstTimestamp then findAux pms ts fuel ((start + en) / 2 + 1) en
        else if (start + en) / 2 = 0 then .error ()
        else findAux pms ts fuel start ((start + en) / 2 - 1)
      | _, _ => .error ()
    else .error ()

/-- `find_partial_match_by_timestamp` (`src/misc/Utils.py` lines 19–47):
returns how many partial matches in the (assumed sorted) list have
`first_timestamp` before the given timestamp; the unreachable final
`raise` is `.error ()`. -/
def findPartialMatchByTimestamp (pms : List PartialMatch) (ts : Int) : Except Unit Nat :=
  match pms with
  | [] => .ok 0
  | first :: _ =>
    if first.firstTimestamp ≥ ts then .ok 0
    else if pms.length = 1 then .ok 1
    else
      match pms.getLast? with
      | some lastPm =>
        if lastPm.firstTimestamp < ts then .ok pms.length
        else findAux pms ts (pms.length + 1) 0 (pms.length - 1)
      | none => .error ()

/-- `merge` (`src/misc/Utils.py` lines 103–127).  The source's loop guard
`i < new_len` is redundant (`i = i1 + i2` throughout), so the merge is the
plain recursion below (the iteration-count `fuel` of `mergeAux`, set by
`merge` to the total length, makes the recursion structural and never runs
out): on `key a < key b` take from the first list, else
(including equal keys) from the second, then append whichever remainder
survives. -/
def mergeAux {α β : Type} [LinearOrder β] (key : α → β) : Nat → List α → List α → List α
  | _, [], arr2 => arr2
  | _, a :: t1, [] => a :: t1
  | 0, _ :: _, _ :: _ => []
  | fuel + 1, a :: t1, b :: t2 =>
    if key a < key b then a :: mergeAux key fuel t1 (b :: t2)
    else b :: mergeAux key fuel (a :: t1) t2

def merge {α β : Type} [LinearOrder β] (key : α → β) (arr1 arr2 : List α) : List α :=
  mergeAux key (arr1.length + arr2.length) arr1 arr2

/-- The interleaving loop of `merge_according_to` (`src/misc/Utils.py`
lines 139–159): walks the two `defs` lists exactly as `merge` does but
emits the aligned elements of the `actual` lists.  The mismatched-length
patterns return `[]`; they are unreachable behind the length guard. -/
def mergeAccordingToAuxF {α γ β : Type} [LinearOrder β] (key : γ → β) :
    Nat → List γ → List γ → List α → List α → List α
  | _, [], _, _, act2 => act2
  | _, _ :: _, [], act1, _ => act1
  | 0, _ :: _, _ :: _, _, _ => []
  | fuel + 1, g1 :: t1, g2 :: t2, act1, act2 =>
    match act1, act2 with
    | a1 :: u1, a2 :: u2 =>
      if key g1 < key g2 then
        a1 :: mergeAccordingToAuxF key fuel t1 (g2 :: t2) u1 (a2 :: u2)
      else a2 :: mergeAccordingToAuxF key fuel (g1 :: t1) t2 (a1 :: u1) u2
    | _, _ => []

def mergeAccordingToAux {α γ β : Type} [LinearOrder β] (key : γ → β)
    (arr1 arr2 : List γ) (actual1 actual2 : List α) : List α :=
  mergeAccordingToAuxF key (arr1.length + arr2.length) arr1 arr2 actual1 actual2

/-- `merge_according_to` (`src/misc/Utils.py` lines 130–159): raises
(`.error ()`) exactly when a `defs` list and its `actual` list have
different lengths, otherwise interleaves the `actual` lists the way
`merge` would interleave the `defs` lists. -/
def mergeAccordingTo {α γ β : Type} [LinearOrder β] (key : γ → β)
    (arr1 arr2 : List γ) (actual1 actual2 : List α) : Except Unit (List α) :=
  if arr1.length ≠ actual1.length ∨ arr2.length ≠ actual2.length then .error ()
  else .ok (mergeAccordingToAux key arr1 arr2 actual1 actual2)

/-- `is_sorted` (`src/misc/Utils.py` lines 164–175): adjacent-pair check
under the key function. -/
def isSorted {α β : Type} [LinearOrder β] (key : α → β) : List α → Bool
  | [] => true
  | [_] => true
  | a :: b :: t => if key a > key b then false else isSorted key (b :: t)

/-- `get_index` (`src/misc/Utils.py` lines 240–241): the pattern position
of an event definition's placeholder. -/
def getIndex (d : EventDef) : Nat := d.2.index

/-- The sortedness invariant of a node's `partial_matches` store:
non-decreasing `first_timestamp` (spec §8 property 2). -/
def SortedByFt (l : List PartialMatch) : Prop :=
  l.Pairwise (fun a b => a.firstTimestamp ≤ b.firstTimestamp)

instance : DecidablePred SortedByFt := fun _ => by
  unfold SortedByFt
  infer_instance

/-- The number of stored partial matches strictly before `ts`. -/
def countBefore (l : List PartialMatch) (ts : Int) : Nat :=
  l.countP (fun pm => decide (pm.firstTimestamp < ts))

/-- `Node.add_partial_match` (TreeBasedEvaluationMechanism.py lines 149–158),
restricted to its effect on the node's `_partial_matches` list: insert at the
index `find_partial_match_by_timestamp` returns for the new match's
`first_timestamp`.  (The parent-queue side effect lives in the tree
interpreter below.) -/
def addPartialMatchList (l : List PartialMatch) (pm : PartialMatch) :
    Except Unit (List PartialMatch) :=
  match findPartialMatchByTimestamp l pm.firstTimestamp with
  | .ok index => .ok (l.insertIdx index pm)
  | .error e => .error e

/-- `Node.clean_expired_partial_matches` (lines 71–74), restricted to its
effect on the node's own `_partial_matches` list: no-op when the window is
`timedelta.max`, else drop the prefix before `last_timestamp - window`. -/
def cleanExpiredList (window : Option Int) (l : List PartialMatch)
    (lastTimestamp : Int) : Except Unit (List PartialMatch) :=
  match window with
  | none => .ok l
  | some w =>
    match findPartialMatchByTimestamp l (lastTimestamp - w) with
    | .ok count => .ok (l.drop count)
    | .error e => .error e

/-- `Node.consume_first_partial_match` (lines 31–38): returns and deletes
`partial_matches[0]`; Python raises `IndexError` on an empty store. -/
def consumeFirstList (l : List PartialMatch) :
    Except Unit (PartialMatch × List PartialMatch) :=
  match l with
  | [] => .error ()
  | pm :: rest => .ok (pm, rest)

/-- `InternalNegationNode._remove_partial_matches` (lines 530–535): keep the
stored matches that are not in the removal list. -/
def removePartialMatchesList (l : List PartialMatch)
    (toRemove : List PartialMatch) : List PartialMatch :=
  l.filter (fun pm => decide (pm ∉ toRemove))

/-- One operation on a node's `partial_matches` store. -/
inductive StoreOp where
  | add (pm : PartialMatch)
  | clean (window : Option Int) (lastTimestamp : Int)
  | consumeFirst
  | remove (toRemove : List PartialMatch)

/-- Apply one store operation. -/
def applyStoreOp (l : List PartialMatch) : StoreOp → Except Unit (List PartialMatch)
  | .add pm => addPartialMatchList l pm
  | .clean w ts => cleanExpiredList w l ts
  | .consumeFirst => (consumeFirstList l).map Prod.snd
  | .remove ms => .ok (removePartialMatchesList l ms)

/-- Run store operations in sequence from a given store; an exception stops
the run. -/
def runStoreOpsFrom (l : List PartialMatch) : List StoreOp → Except Unit (List PartialMatch)
  | [] => .ok l
  | op :: rest =>
    match applyStoreOp l op with
    | .ok l1 => runStoreOpsFrom l1 rest
    | .error e => .error e

/-- Run a sequence of store operations from the empty store. -/
def runStoreOps (ops : List StoreOp) : Except Unit (List PartialMatch) :=
  runStoreOpsFrom [] ops

/-- A term of the predicate AST (`src/base/Formula.py`): `AtomicTerm`,
`IdentifierTerm` — whose `getattr_func` is embedded as the identity on the
`Int` payload — and the arithmetic `BinaryOperationTerm` subclasses used
with integer payloads (`DivTerm`, Python float division, is never needed by
the claims and is omitted). -/
inductive Term where
  | atomic (value : Int)
  | identifier (name : String)
  | plus (lhs rhs : Term)
  | minus (lhs rhs : Term)
  | mul (lhs rhs : Term)
deriving DecidableEq, Repr

/-- A name/value binding, Python's `dict` argument of `eval` (names are
unique per binding, as the engine builds them from distinct placeholder
names). -/
abbrev Binding := List (String × Int)

/-- `Term.eval`: `none` models the `NameError` raised for an unbound
identifier. -/
def Term.eval (binding : Binding) : Term → Option Int
  | .atomic v => some v
  | .identifier n => binding.lookup n
  | .plus l r =>
    match l.eval binding, r.eval binding with
    | some a, some b => some (a + b)
    | _, _ => none
  | .minus l r =>
    match l.eval binding, r.eval binding with
    | some a, some b => some (a - b)
    | _, _ => none
  | .mul l r =>
    match l.eval binding, r.eval binding with
    | some a, some b => some (a * b)
    | _, _ => none

/-- `Term.get_term_of`: `AtomicTerm` returns itself, `IdentifierTerm`
returns itself only when its name is in the set, binary terms need both
sides (`None` otherwise). -/
def Term.getTermOf (names : List String) : Term → Option Term
  | .atomic v => some (.atomic v)
  | .identifier n => if n ∈ names then some (.identifier n) else none
  | .plus l r =>
    match l.getTermOf names, r.getTermOf names with
    | some a, some b => some (.plus a b)
    | _, _ => none
  | .minus l r =>
    match l.getTermOf names, r.getTermOf names with
    | some a, some b => some (.minus a b)
    | _, _ => none
  | .mul l r =>
    match l.getTermOf names, r.getTermOf names with
    | some a, some b => some (.mul a b)
    | _, _ => none

/-- The formula AST (`src/base/Formula.py`): `TrueFormula`, the
`AtomicFormula` comparison subclasses, and `AndFormula`. -/
inductive Formula where
  | trueFormula
  | eqF (l r : Term)
  | neqF (l r : Term)
  | gtF (l r : Term)
  | ltF (l r : Term)
  | geF (l r : Term)
  | leF (l r : Term)
  | andF (l r : Formula)
deriving DecidableEq, Repr

/-- `Formula.eval`: comparison formulas evaluate both terms then apply the
relation; `AndFormula` evaluates both sides (Python's `lambda x, y: x and y`
receives both already-evaluated arguments); `none` models a `NameError`. -/
def Formula.eval (binding : Binding) : Formula → Option Bool
  | .trueFormula => some true
  | .eqF l r =>
    match l.eval binding, r.eval binding with
    | some a, some b => some (decide (a = b))
    | _, _ => none
  | .neqF l r =>
    match l.eval binding, r.eval binding with
    | some a, some b => some (decide (a ≠ b))
    | _, _ => none
  | .gtF l r =>
    match l.eval binding, r.eval binding with
    | some a, some b => some (decide (a > b))
    | _, _ => none
  | .ltF l r =>
    match l.eval binding, r.eval binding with
    | some a, some b => some (decide (a < b))
    | _, _ => none
  | .geF l r =>
    match l.eval binding, r.eval binding with
    | some a, some b => some (decide (a ≥ b))
    | _, _ => none
  | .leF l r =>
    match l.eval binding, r.eval binding with
    | some a, some b => some (decide (a ≤ b))
    | _, _ => none
  | .andF l r =>
    match l.eval binding, r.eval binding with
    | some a, some b => some (a && b)
    | _, _ => none

/-- `Formula.get_formula_of`: the base class (hence `TrueFormula`) returns
`None`; a comparison projects both terms or returns `None`; `AndFormula`
keeps whichever side survives. -/
def Formula.getFormulaOf (names : List String) : Formula → Option Formula
  | .trueFormula => none
  | .eqF l r =>
    match l.getTermOf names, r.getTermOf names with
    | some a, some b => some (.eqF a b)
    | _, _ => none
  | .neqF l r =>
    match l.getTermOf names, r.getTermOf names with
    | some a, some b => some (.neqF a b)
    | _, _ => none
  | .gtF l r =>
    match l.getTermOf names, r.getTermOf names with
    | some a, some b => some (.gtF a b)
    | _, _ => none
  | .ltF l r =>
    match l.getTermOf names, r.getTermOf names with
    | some a, some b => some (.ltF a b)
    | _, _ => none
  | .geF l r =>
    match l.getTermOf names, r.getTermOf names with
    | some a, some b => some (.geF a b)
    | _, _ => none
  | .leF l r =>
    match l.getTermOf names, r.getTermOf names with
    | some a, some b => some (.leF a b)
    | _, _ => none
  | .andF l r =>
    match l.getFormulaOf names, r.getFormulaOf names with
    | some a, some b => some (.andF a b)
    | some a, none => some a
    | none, some b => some b
    | none, none => none

/-- `Formula.get_all_terms`: the names an `AtomicFormula` adds to the set
(top-level `IdentifierTerm`s only); `AndFormula` adds both sides;
`TrueFormula` adds nothing (the base `get_all_terms` evaluates
`NotImplementedError()` without raising it and leaves the set alone). -/
def Formula.getAllTerms : Formula → List String
  | .trueFormula => []
  | .eqF l r | .neqF l r | .gtF l r | .ltF l r | .geF l r | .leF l r =>
    (match l with | .identifier n => [n] | _ => []) ++
      (match r with | .identifier n => [n] | _ => [])
  | .andF l r => l.getAllTerms ++ r.getAllTerms

/-- `get_events_in_a_condition_with`: a comparison whose two terms are both
identifiers and one of them carries the given name returns itself, else
`None`; `AndFormula` combines like `get_formula_of`.  (Python defines the
method only on the comparison classes and `AndFormula`; calling it on
`TrueFormula` would raise `AttributeError` — the tree builder is only
exercised here with conditions that define it, and the `TrueFormula` case
below returns `None`.) -/
def Formula.getEventsInAConditionWith (name : String) : Formula → Option Formula
  | .trueFormula => none
  | .eqF l r =>
    match l, r with
    | .identifier a, .identifier b =>
      if a = name ∨ b = name then some (.eqF (.identifier a) (.identifier b)) else none
    | _, _ => none
  | .neqF l r =>
    match l, r with
    | .identifier a, .identifier b =>
      if a = name ∨ b = name then some (.neqF (.identifier a) (.identifier b)) else none
    | _, _ => none
  | .gtF l r =>
    match l, r with
    | .identifier a, .identifier b =>
      if a = name ∨ b = name then some (.gtF (.identifier a) (.identifier b)) else none
    | _, _ => none
  | .ltF l r =>
    match l, r with
    | .identifier a, .identifier b =>
      if a = name ∨ b = name then some (.ltF (.identifier a) (.identifier b)) else none
    | _, _ => none
  | .geF l r =>
    match l, r with
    | .identifier a, .identifier b =>
      if a = name ∨ b = name then some (.geF (.identifier a) (.identifier b)) else none
    | _, _ => none
  | .leF l r =>
    match l, r with
    | .identifier a, .identifier b =>
      if a = name ∨ b = name then some (.leF (.identifier a) (.identifier b)) else none
    | _, _ => none
  | .andF l r =>
    match l.getEventsInAConditionWith name, r.getEventsInAConditionWith name with
    | some a, some b => some (.andF a b)
    | some a, none => some a
    | none, some b => some b
    | none, none => none

/-- The per-node data `InternalNode._try_create_new_match` reads: the
sliding window, the un-invalidation `threshold`, the node's `_event_defs`,
its projected condition, and whether the node is a `SeqNode` (which
overrides `_merge_events_for_new_match` and `_validate_new_match`). -/
structure JoinNode where
  window : Option Int
  threshold : Int
  eventDefs : List EventDef
  condition : Formula
  isSeq : Bool
deriving Repr

/-- The window test of `_try_create_new_match` (lines 354–355):
`sliding_window != timedelta.max and
abs(first.last_timestamp - second.first_timestamp) > sliding_window`. -/
def windowExceeded (window : Option Int) (f s : PartialMatch) : Bool :=
  match window with
  | none => false
  | some w => decide (|f.lastTimestamp - s.firstTimestamp| > w)

/-- `_merge_events_for_new_match`: the `InternalNode` base version
(lines 371–383; concatenation directed by the first arrival slot, with the
final `raise` and an out-of-range access as `.error`) or the `SeqNode`
override (lines 413–419; `merge_according_to` keyed on the arrival slot). -/
def mergeEventsForNewMatch (n : JoinNode) (firstDefs secondDefs : List EventDef)
    (firstEvents secondEvents : List Event) : Except Unit (List Event) :=
  if n.isSeq then
    mergeAccordingTo (fun d : EventDef => d.1) firstDefs secondDefs firstEvents secondEvents
  else
    match n.eventDefs.head?, firstDefs.head?, secondDefs.head? with
    | some d, some fd, some sd =>
      if d.1 = fd.1 then .ok (firstEvents ++ secondEvents)
      else if d.1 = sd.1 then .ok (secondEvents ++ firstEvents)
      else .error ()
    | _, _, _ => .error ()

/-- `_validate_new_match`: builds the binding
`{event_defs[i].name : events[i].payload}` (an out-of-range access is
`.error`, as is a `NameError` from `eval`); the `SeqNode` override
(lines 421–424) first requires the merged events' timestamps to be
non-decreasing. -/
def validateNewMatch (n : JoinNode) (events : List Event) : Except Unit Bool :=
  if events.length < n.eventDefs.length then .error ()
  else
    if n.isSeq ∧ ¬ isSorted (fun e : Event => e.timestamp) events then .ok false
    else
      match n.condition.eval ((n.eventDefs.zip events).map
          (fun p => (p.1.2.name, p.2.payload))) with
      | some b => .ok b
      | none => .error ()

/-- `InternalNode._try_create_new_match` (lines 348–369), as a decision
function: `.ok (some evs)` when the source would execute
`add_partial_match(PartialMatch(evs))` and notify the parent, `.ok none`
when one of the three guards (window, validation, threshold) silently
rejects the pair, `.error` when Python would raise. -/
def tryCreateNewMatch (n : JoinNode) (firstPm secondPm : PartialMatch)
    (firstDefs secondDefs : List EventDef) : Except Unit (Option (List Event)) :=
  if windowExceeded n.window firstPm secondPm then .ok none
  else
    match mergeEventsForNewMatch n firstDefs secondDefs firstPm.events secondPm.events with
    | .error e => .error e
    | .ok evs =>
      match validateNewMatch n evs with
      | .error e => .error e
      | .ok valid =>
        if ¬ valid then .ok none
        else if n.threshold ≠ 0 ∧ firstPm.lastTimestamp < n.threshold then .ok none
        else .ok (some evs)

/-- Shorthand event constructor for concrete examples. -/
def evAt (ty : String) (t : Int) (p : Int) : Event :=
  { eventType := ty, timestamp := t, payload := p }

/-- Singleton partial match for concrete examples. -/
def pmAt (t : Int) (p : Int) : PartialMatch :=
  mkPartialMatch [evAt "A" t p]

/-- Decidable equality for `Except`, for the concrete evaluations below. -/
instance exceptDecEq {eps alpha : Type} [DecidableEq eps] [DecidableEq alpha] :
    DecidableEq (Except eps alpha)
  | .error a, .error b =>
    if h : a = b then .isTrue (by rw [h])
    else .isFalse (by intro hc; cases hc; exact h rfl)
  | .error _, .ok _ => .isFalse (by intro hc; cases hc)
  | .ok _, .error _ => .isFalse (by intro hc; cases hc)
  | .ok a, .ok b =>
    if h : a = b then .isTrue (by rw [h])
    else .isFalse (by intro hc; cases hc; exact h rfl)

/-- Concrete node state for the C2 counterexample: an AND-style internal
node over three placeholders, window 5, threshold 0, trivially true
condition. -/
def c2Node : JoinNode :=
  { window := some 5, threshold := 0
    eventDefs := [(0, ⟨"B", "b", 0⟩), (1, ⟨"C", "c", 1⟩), (2, ⟨"D", "d", 2⟩)]
    condition := .trueFormula, isSeq := false }

def c2First : PartialMatch := mkPartialMatch [evAt "B" 1 0]

def c2Second : PartialMatch := mkPartialMatch [evAt "C" 6 0, evAt "D" 11 0]

/-- Two-placeholder node used by the C2 witness. -/
def c2WitnessNode : JoinNode :=
  { window := some 5, threshold := 0
    eventDefs := [(0, ⟨"B", "b", 0⟩), (1, ⟨"C", "c", 1⟩)]
    condition := .trueFormula, isSeq := false }

/-- Concrete node state for the C3 counterexample: window 5, threshold 6. -/
def c3Node : JoinNode :=
  { window := some 5, threshold := 6
    eventDefs := [(0, ⟨"B", "b", 0⟩), (1, ⟨"C", "c", 1⟩)]
    condition := .trueFormula, isSeq := false }

def c3First : PartialMatch := mkPartialMatch [evAt "B" 2 0]

def c3Second : PartialMatch := mkPartialMatch [evAt "C" 6 0]

/-- Node kinds of the evaluation tree (the closed set of `Node`
subclasses). -/
inductive NodeKind where
  | leafNode
  | seqNode
  | andNode
  | firstChance
  | postProcessing
deriving DecidableEq, Repr

/-- The `top_operator` recorded on negation nodes
(`SeqOperator`/`AndOperator`/`OrOperator`). -/
inductive TopOperator where
  | seqOp
  | andOp
  | orOp
deriving DecidableEq, Repr

/-- One tree node's mutable state.  Python objects are embedded as records
in an arena indexed by node id; `parent`, `left`, `right` are the object
references.  Fields irrelevant to a kind keep their defaults (Python sets
some attributes dynamically — e.g. `threshold` on whatever node holds it). -/
structure NodeData where
  kind : NodeKind
  parent : Option Nat := none
  left : Option Nat := none
  right : Option Nat := none
  slidingWindow : Option Int := none
  partialMatches : List PartialMatch := []
  unhandled : List PartialMatch := []
  condition : Formula := .trueFormula
  eventDefs : List EventDef := []
  leafIndex : Nat := 0
  eventName : String := ""
  eventType : String := ""
  qitemIndex : Nat := 0
  isFirst : Bool := false
  isLast : Bool := false
  topOperator : TopOperator := .seqOp
  waitingForTimeOut : List PartialMatch := []
  matchesToHandleAtEOF : List PartialMatch := []
  checkExpiredTimestamp : List (Int × PartialMatch) := []
  threshold : Int := 0

/-- The whole-tree state: an arena of node records (`nodeMap` beyond
`count` is never read), plus a flag recording that Python would have raised
an uncaught exception or blocked (fatal; the interpreters stop). -/
structure EvalState where
  nodeMap : Nat → NodeData
  count : Nat
  stuck : Bool := false

def getNode (s : EvalState) (i : Nat) : NodeData := s.nodeMap i

def modifyNode (s : EvalState) (i : Nat) (f : NodeData → NodeData) : EvalState :=
  { s with nodeMap := fun j => if j = i then f (s.nodeMap j) else s.nodeMap j }

def setStuck (s : EvalState) : EvalState := { s with stuck := true }

/-- Allocate a node at the next id. -/
def newNode (s : EvalState) (n : NodeData) : EvalState × Nat :=
  ({ s with nodeMap := fun j => if j = s.count then n else s.nodeMap j
            count := s.count + 1 },
   s.count)

/-- `Node.get_root` (lines 58–65): chase parents. -/
def getRootAux : Nat → EvalState → Nat → Option Nat
  | 0, _, _ => none
  | fuel + 1, s, i =>
    match (getNode s i).parent with
    | none => some i
    | some p => getRootAux fuel s p

def getRoot (s : EvalState) (i : Nat) : Option Nat :=
  getRootAux (s.count + 1) s i

/-- `get_first_FCNodes`: leaves yield `[]` (line 213–214); a
`FirstChanceNode` yields itself iff `is_first` and does not recurse
(lines 628–632); every other internal node recurses into each non-leaf
child (lines 286–292).  A missing child contributes `[]` (the builders
always set both subtrees before this can run). -/
def getFirstFCNodes : Nat → EvalState → Nat → List Nat
  | 0, _, _ => []
  | fuel + 1, s, i =>
    let n := getNode s i
    match n.kind with
    | .leafNode => []
    | .firstChance => if n.isFirst then [i] else []
    | _ =>
      (match n.left with
       | some l => if (getNode s l).kind ≠ .leafNode then getFirstFCNodes fuel s l else []
       | none => []) ++
      (match n.right with
       | some r => if (getNode s r).kind ≠ .leafNode then getFirstFCNodes fuel s r else []
       | none => [])

/-- `get_event_definitions`: a leaf's single entry (line 227–228), a
negation node's left subtree's definitions (lines 461–462), an internal
node's stored `_event_defs` (lines 305–306). -/
def getEventDefinitions : Nat → EvalState → Nat → List EventDef
  | 0, _, _ => []
  | fuel + 1, s, i =>
    let n := getNode s i
    match n.kind with
    | .leafNode => [(n.leafIndex, ⟨n.eventType, n.eventName, n.qitemIndex⟩)]
    | .firstChance | .postProcessing =>
      match n.left with
      | some l => getEventDefinitions fuel s l
      | none => []
    | _ => n.eventDefs

/-- `get_leaves` (lines 210–211, 278–284). -/
def getLeaves : Nat → EvalState → Nat → List Nat
  | 0, _, _ => []
  | fuel + 1, s, i =>
    let n := getNode s i
    match n.kind with
    | .leafNode => [i]
    | _ =>
      (match n.left with | some l => getLeaves fuel s l | none => []) ++
        (match n.right with | some r => getLeaves fuel s r | none => [])

/-- `get_deepest_leave` (lines 216–217, 294–296): follow left children. -/
def getDeepestLeave : Nat → EvalState → Nat → Option Nat
  | 0, _, _ => none
  | fuel + 1, s, i =>
    let n := getNode s i
    match n.kind with
    | .leafNode => some i
    | _ =>
      match n.left with
      | some l => getDeepestLeave fuel s l
      | none => none

/-- `get_first_last_negative_node` (lines 518–528): descend while the left
subtree is a negation node with `is_last`. -/
def getFirstLastNegativeNode : Nat → EvalState → Nat → Nat
  | 0, _, i => i
  | fuel + 1, s, i =>
    match (getNode s i).left with
    | some l =>
      let ln := getNode s l
      if ((ln.kind = .postProcessing ∨ ln.kind = .firstChance) ∧ ln.isLast) then
        getFirstLastNegativeNode fuel s l
      else i
    | none => i

/-- Stable insertion into a `first_timestamp`-sorted list (the inserted
element goes before later elements with an equal key), the building block
of the stable `sorted(..., key=lambda x: x.first_timestamp)`. -/
def insertByFt (pm : PartialMatch) : List PartialMatch → List PartialMatch
  | [] => [pm]
  | x :: t =>
    if x.firstTimestamp < pm.firstTimestamp then x :: insertByFt pm t
    else pm :: x :: t

/-- Python's stable `sorted` by `first_timestamp` (insertion sort is
stable, like Timsort). -/
def sortByFt : List PartialMatch → List PartialMatch
  | [] => []
  | x :: t => insertByFt x (sortByFt t)

/-- `Queue.get` on `_unhandled_partial_matches`: pop the oldest enqueued
match; an empty queue blocks forever in Python (`none`). -/
def popUnhandled (s : EvalState) (i : Nat) : Option (PartialMatch × EvalState) :=
  match (getNode s i).unhandled with
  | [] => none
  | pm :: rest => some (pm, modifyNode s i (fun n => { n with unhandled := rest }))

/-- `Node.add_partial_match` (lines 149–158) on the arena: binary-search
insert, then enqueue for the parent when one exists. -/
def addPartialMatchNode (s : EvalState) (i : Nat) (pm : PartialMatch) : EvalState :=
  let n := getNode s i
  match findPartialMatchByTimestamp n.partialMatches pm.firstTimestamp with
  | .error _ => setStuck s
  | .ok index =>
    let s1 := modifyNode s i (fun nd =>
      { nd with partialMatches := nd.partialMatches.insertIdx index pm })
    match n.parent with
    | some _ => modifyNode s1 i (fun nd => { nd with unhandled := nd.unhandled ++ [pm] })
    | none => s1

/-- `InternalNegationNode._remove_partial_matches` (lines 530–535) on the
arena. -/
def removePartialMatchesNode (s : EvalState) (i : Nat)
    (toRemove : List PartialMatch) : EvalState :=
  modifyNode s i (fun nd =>
    { nd with partialMatches := removePartialMatchesList nd.partialMatches toRemove })

/-- The `JoinNode` view of an arena node, as read by
`InternalNode._try_create_new_match`. -/
def joinCtxOf (n : NodeData) : JoinNode :=
  { window := n.slidingWindow, threshold := n.threshold, eventDefs := n.eventDefs
    condition := n.condition, isSeq := n.kind = .seqNode }

/-- `InternalNegationNode._try_create_new_match` (lines 464–490) as a
decision: truthy (`true`) when the negative event invalidates the pair;
the implicit `return None` after a failed window test and the explicit
`return False` after a failed SEQ order test are both falsy; the
`AndOperator`/`OrOperator` branches raise `NotImplementedError`. -/
def negTryCreateNewMatch (n : NodeData) (firstPm secondPm : PartialMatch)
    (firstDefs secondDefs : List EventDef) : Except Unit Bool :=
  if windowExceeded n.slidingWindow firstPm secondPm then .ok false
  else
    match mergeAccordingTo getIndex firstDefs secondDefs
        firstPm.events secondPm.events with
    | .error e => .error e
    | .ok evs =>
      match n.topOperator with
      | .seqOp =>
        if ¬ isSorted (fun e : Event => e.timestamp) evs then .ok false
        else validateNewMatch
          { window := n.slidingWindow, threshold := n.threshold
            eventDefs := n.eventDefs, condition := n.condition, isSeq := false } evs
      | .andOp => .error ()
      | .orOp => .error ()

/-- First invalidating negative match in a comparison list (the FC/PP scan
loops with `break`/`return` on the first truthy `_try_create_new_match`). -/
def findInvalidator (s : EvalState) (selfId : Nat) (newPm : PartialMatch)
    (firstDefs secondDefs : List EventDef) :
    List PartialMatch → Except Unit (Option PartialMatch)
  | [] => .ok none
  | pm :: rest =>
    match negTryCreateNewMatch (getNode s selfId) newPm pm firstDefs secondDefs with
    | .error e => .error e
    | .ok true => .ok (some pm)
    | .ok false => findInvalidator s selfId newPm firstDefs secondDefs rest

/-- All invalidated matches of a comparison list (the middle-negation
collection loop, lines 617–620). -/
def collectInvalidated (s : EvalState) (selfId : Nat) (newPm : PartialMatch)
    (firstDefs secondDefs : List EventDef) :
    List PartialMatch → Except Unit (List PartialMatch)
  | [] => .ok []
  | pm :: rest =>
    match negTryCreateNewMatch (getNode s selfId) newPm pm firstDefs secondDefs with
    | .error e => .error e
    | .ok b =>
      match collectInvalidated s selfId newPm firstDefs secondDefs rest with
      | .error e => .error e
      | .ok l => .ok (if b then pm :: l else l)

/-- The matches of `waiting_for_timeout` that survive a trailing negative
(`handle_PM_with_negation_at_the_end` keeps the non-invalidated ones,
lines 511–516). -/
def keepNotInvalidated (s : EvalState) (selfId : Nat) (newPm : PartialMatch)
    (firstDefs secondDefs : List EventDef) :
    List PartialMatch → Except Unit (List PartialMatch)
  | [] => .ok []
  | pm :: rest =>
    match negTryCreateNewMatch (getNode s selfId) newPm pm firstDefs secondDefs with
    | .error e => .error e
    | .ok b =>
      match keepNotInvalidated s selfId newPm firstDefs secondDefs rest with
      | .error e => .error e
      | .ok l => .ok (if b then l else pm :: l)

/-- The walk of lines 622–626: remove the invalidated matches from this
node and every enclosing `FirstChanceNode`. -/
def fcRemoveUpChain : Nat → EvalState → Nat → List PartialMatch → EvalState
  | 0, s, _, _ => setStuck s
  | fuel + 1, s, nodeId, toRemove =>
    if (getNode s nodeId).kind = .firstChance then
      let s := removePartialMatchesNode s nodeId toRemove
      match (getNode s nodeId).parent with
      | some p => fcRemoveUpChain fuel s p toRemove
      | none => s
    else s

/-- `node_to_hold_threshold` (lines 133–136): from the root, descend left
past `FirstChanceNode`s with `is_last`. -/
def descendThresholdHolder : Nat → EvalState → Nat → Nat
  | 0, _, i => i
  | fuel + 1, s, i =>
    let n := getNode s i
    if n.kind = .firstChance ∧ n.isLast then
      match n.left with
      | some l => descendThresholdHolder fuel s l
      | none => i
    else i

/-- The `get_first_FCNodes` scope of a `clean_expired_partial_matches`
call (lines 107–110): the parent's subtree when a parent exists, else the
node's own. -/
def fcScopeList (s : EvalState) (nid : Nat) : List Nat :=
  match (getNode s nid).parent with
  | some p => getFirstFCNodes (s.count + 1) s p
  | none => getFirstFCNodes (s.count + 1) s nid

mutual

/-- `Node.clean_expired_partial_matches` (lines 67–147): return at once on
an unbounded window; drop the own expired prefix (73–74); for a trailing
negation node move timed-out `waiting_for_timeout` entries to the root's
`matches_to_handle_at_EOF` (84–91); then visit every `is_first`
`FirstChanceNode` in the parent's subtree (107–147). -/
def cleanExpired : Nat → EvalState → Nat → Int → EvalState
  | 0, s, _, _ => setStuck s
  | fuel + 1, s, selfId, lastTimestamp =>
    if s.stuck then s
    else
      let n := getNode s selfId
      match n.slidingWindow with
      | none => s
      | some w =>
        match findPartialMatchByTimestamp n.partialMatches (lastTimestamp - w) with
        | .error _ => setStuck s
        | .ok count =>
          let s := modifyNode s selfId (fun nd =>
            { nd with partialMatches := nd.partialMatches.drop count })
          let s :=
            if (n.kind = .postProcessing ∨ n.kind = .firstChance) ∧ n.isLast then
              let sortedWaiting := sortByFt (getNode s selfId).waitingForTimeOut
              match findPartialMatchByTimestamp sortedWaiting (lastTimestamp - w) with
              | .error _ => setStuck s
              | .ok cnt =>
                match getRoot s selfId with
                | none => setStuck s
                | some rootId =>
                  let s := modifyNode s rootId (fun nd =>
                    { nd with matchesToHandleAtEOF :=
                        nd.matchesToHandleAtEOF ++ sortedWaiting.take cnt })
                  modifyNode s selfId (fun nd =>
                    { nd with waitingForTimeOut := sortedWaiting.drop cnt })
            else s
          if s.stuck then s
          else cleanExpiredFCLoop fuel s selfId lastTimestamp (fcScopeList s selfId)
termination_by structural fuel => fuel


/-- The loop over the `is_first` `FirstChanceNode`s (lines 112–147); the
`return` of line 113–114 aborts the remaining iterations (and the whole
`clean_expired_partial_matches` call). -/
def cleanExpiredFCLoop : Nat → EvalState → Nat → Int → List Nat → EvalState
  | _, s, _, _, [] => s
  | 0, s, _, _, _ :: _ => setStuck s
  | fuel + 1, s, selfId, lastTimestamp, fcId :: rest =>
    if s.stuck then s
    else
      let fc := getNode s fcId
      match fc.slidingWindow with
      | none => s
      | some _ =>
        match fc.right with
        | none => setStuck s
        | some rightId =>
          let rn := getNode s rightId
          match rn.slidingWindow with
          | none => setStuck s
          | some rw =>
            match findPartialMatchByTimestamp rn.partialMatches (lastTimestamp - rw) with
            | .error _ => setStuck s
            | .ok cnt =>
              let s := modifyNode s rightId (fun nd =>
                { nd with partialMatches := nd.partialMatches.drop cnt })
              let expired := ((getNode s fcId).checkExpiredTimestamp.filter
                (fun p => decide (p.1 < lastTimestamp))).map Prod.snd
              let s := cleanExpiredUnblockLoop fuel s selfId lastTimestamp fcId expired
              cleanExpiredFCLoop fuel s selfId lastTimestamp rest
termination_by structural fuel => fuel


/-- The per-blocked-match re-ascent (lines 119–147): install the threshold
on the holder, drop the entry, re-enqueue the match on the
`FirstChanceNode`'s left child and replay `handle_new_partial_match`, then
reset the threshold. -/
def cleanExpiredUnblockLoop : Nat → EvalState → Nat → Int → Nat → List PartialMatch → EvalState
  | _, s, _, _, _, [] => s
  | 0, s, _, _, _, _ :: _ => setStuck s
  | fuel + 1, s, selfId, lastTimestamp, fcId, pm :: rest =>
    if s.stuck then s
    else
      match getRoot s selfId with
      | none => setStuck s
      | some rootId =>
        let holder := descendThresholdHolder (s.count + 1) s rootId
        let s := modifyNode s holder (fun nd => { nd with threshold := lastTimestamp })
        let s := modifyNode s fcId (fun nd =>
          { nd with checkExpiredTimestamp :=
              nd.checkExpiredTimestamp.filter (fun x => decide (x.2 ≠ pm)) })
        match (getNode s fcId).left with
        | none => setStuck s
        | some leftId =>
          let s := modifyNode s leftId (fun nd => { nd with unhandled := nd.unhandled ++ [pm] })
          let s := handleNewPartialMatch fuel s fcId leftId
          let s := modifyNode s holder (fun nd => { nd with threshold := 0 })
          cleanExpiredUnblockLoop fuel s selfId lastTimestamp fcId rest
termination_by structural fuel => fuel


/-- `handle_new_partial_match` dispatch on the node kind; a leaf has no
such method (`AttributeError`). -/
def handleNewPartialMatch : Nat → EvalState → Nat → Nat → EvalState
  | 0, s, _, _ => setStuck s
  | fuel + 1, s, selfId, sourceId =>
    if s.stuck then s
    else
      match (getNode s selfId).kind with
      | .seqNode | .andNode => handleInternalNPM fuel s selfId sourceId
      | .firstChance => handleFirstChanceNPM fuel s selfId sourceId
      | .postProcessing => handlePostProcessingNPM fuel s selfId sourceId
      | .leafNode => setStuck s
termination_by structural fuel => fuel


/-- `InternalNode.handle_new_partial_match` (lines 324–346). -/
def handleInternalNPM : Nat → EvalState → Nat → Nat → EvalState
  | 0, s, _, _ => setStuck s
  | fuel + 1, s, selfId, sourceId =>
    let n := getNode s selfId
    let otherOpt :=
      if n.left = some sourceId then n.right
      else if n.right = some sourceId then n.left
      else none
    match otherOpt with
    | none => setStuck s
    | some otherId =>
      match popUnhandled s sourceId with
      | none => setStuck s
      | some (newPm, s) =>
        let firstDefs := getEventDefinitions (s.count + 1) s sourceId
        let s := cleanExpired fuel s otherId newPm.lastTimestamp
        let compareList := (getNode s otherId).partialMatches
        let secondDefs := getEventDefinitions (s.count + 1) s otherId
        let s := cleanExpired fuel s selfId newPm.lastTimestamp
        internalTryLoop fuel s selfId newPm firstDefs secondDefs compareList
termination_by structural fuel => fuel


/-- The per-stored-match loop of `InternalNode.handle_new_partial_match`
(lines 345–346), each iteration running `_try_create_new_match`
(lines 348–369), whose acceptance adds the merged match and notifies the
parent. -/
def internalTryLoop : Nat → EvalState → Nat → PartialMatch → List EventDef → List EventDef → List PartialMatch → EvalState
  | _, s, _, _, _, _, [] => s
  | 0, s, _, _, _, _, _ :: _ => setStuck s
  | fuel + 1, s, selfId, newPm, firstDefs, secondDefs, pm :: rest =>
    if s.stuck then s
    else
      match tryCreateNewMatch (joinCtxOf (getNode s selfId)) newPm pm firstDefs secondDefs with
      | .error _ => setStuck s
      | .ok none => internalTryLoop fuel s selfId newPm firstDefs secondDefs rest
      | .ok (some evs) =>
        let s := addPartialMatchNode s selfId (mkPartialMatch evs)
        let s :=
          match (getNode s selfId).parent with
          | some p => handleNewPartialMatch fuel s p selfId
          | none => s
        internalTryLoop fuel s selfId newPm firstDefs secondDefs rest
termination_by structural fuel => fuel


/-- `FirstChanceNode.handle_new_partial_match` (lines 554–632). -/
def handleFirstChanceNPM : Nat → EvalState → Nat → Nat → EvalState
  | 0, s, _, _ => setStuck s
  | fuel + 1, s, selfId, sourceId =>
    let n := getNode s selfId
    if n.left = some sourceId then
      match popUnhandled s sourceId with
      | none => setStuck s
      | some (newPm, s) =>
        if n.isLast then
          modifyNode s selfId (fun nd =>
            { nd with waitingForTimeOut := nd.waitingForTimeOut ++ [newPm] })
        else
          match n.right with
          | none => setStuck s
          | some rightId =>
            let firstDefs := getEventDefinitions (s.count + 1) s sourceId
            let s := cleanExpired fuel s rightId newPm.lastTimestamp
            let compareList := (getNode s rightId).partialMatches
            let secondDefs := getEventDefinitions (s.count + 1) s rightId
            let s := cleanExpired fuel s selfId newPm.lastTimestamp
            match findInvalidator s selfId newPm firstDefs secondDefs compareList with
            | .error _ => setStuck s
            | .ok none =>
              let s := addPartialMatchNode s selfId newPm
              match (getNode s selfId).parent with
              | some p => handleNewPartialMatch fuel s p selfId
              | none => s
            | .ok (some invalidator) =>
              if n.isFirst then
                match n.slidingWindow with
                | none => setStuck s
                | some w =>
                  modifyNode s selfId (fun nd =>
                    { nd with checkExpiredTimestamp := nd.checkExpiredTimestamp ++
                        [(invalidator.lastTimestamp + w, newPm)] })
              else s
    else if n.right = some sourceId then
      if n.isFirst then s
      else if n.isLast then handlePMWithNegationAtEnd fuel s selfId sourceId
      else
        match popUnhandled s sourceId with
        | none => setStuck s
        | some (newPm, s) =>
          match n.left with
          | none => setStuck s
          | some leftId =>
            let firstDefs := getEventDefinitions (s.count + 1) s sourceId
            let s := cleanExpired fuel s leftId newPm.lastTimestamp
            let compareList := (getNode s leftId).partialMatches
            let secondDefs := getEventDefinitions (s.count + 1) s leftId
            let s := cleanExpired fuel s selfId newPm.lastTimestamp
            match collectInvalidated s selfId newPm firstDefs secondDefs compareList with
            | .error _ => setStuck s
            | .ok toRemove => fcRemoveUpChain (s.count + 1) s selfId toRemove
    else s
termination_by structural fuel => fuel


/-- `PostProcessingNode.handle_new_partial_match` (lines 645–678). -/
def handlePostProcessingNPM : Nat → EvalState → Nat → Nat → EvalState
  | 0, s, _, _ => setStuck s
  | fuel + 1, s, selfId, sourceId =>
    let n := getNode s selfId
    if n.left = some sourceId then
      if n.isLast then
        match popUnhandled s sourceId with
        | none => setStuck s
        | some (newPm, s) =>
          modifyNode s selfId (fun nd =>
            { nd with waitingForTimeOut := nd.waitingForTimeOut ++ [newPm] })
      else
        match n.right with
        | none => setStuck s
        | some otherId =>
          match popUnhandled s sourceId with
          | none => setStuck s
          | some (newPm, s) =>
            let firstDefs := getEventDefinitions (s.count + 1) s sourceId
            let s := cleanExpired fuel s otherId newPm.lastTimestamp
            let compareList := (getNode s otherId).partialMatches
            let secondDefs := getEventDefinitions (s.count + 1) s otherId
            let s := cleanExpired fuel s selfId newPm.lastTimestamp
            match findInvalidator s selfId newPm firstDefs secondDefs compareList with
            | .error _ => setStuck s
            | .ok (some _) => s
            | .ok none =>
              let s := addPartialMatchNode s selfId newPm
              match (getNode s selfId).parent with
              | some p => handleNewPartialMatch fuel s p selfId
              | none => s
    else if n.right = some sourceId then
      if n.isLast then handlePMWithNegationAtEnd fuel s selfId sourceId else s
    else setStuck s
termination_by structural fuel => fuel


/-- `handle_PM_with_negation_at_the_end` (lines 492–516). -/
def handlePMWithNegationAtEnd : Nat → EvalState → Nat → Nat → EvalState
  | 0, s, _, _ => setStuck s
  | fuel + 1, s, selfId, sourceId =>
    let otherId := getFirstLastNegativeNode (s.count + 1) s selfId
    match popUnhandled s sourceId with
    | none => setStuck s
    | some (newPm, s) =>
      let firstDefs := getEventDefinitions (s.count + 1) s sourceId
      let s := cleanExpired fuel s otherId newPm.lastTimestamp
      let compareList := (getNode s otherId).waitingForTimeOut
      let secondDefs := getEventDefinitions (s.count + 1) s otherId
      let s := cleanExpired fuel s selfId newPm.lastTimestamp
      match keepNotInvalidated s selfId newPm firstDefs secondDefs compareList with
      | .error _ => setStuck s
      | .ok keep =>
        modifyNode s otherId (fun nd => { nd with waitingForTimeOut := keep })
termination_by structural fuel => fuel


/-- `LeafNode.handle_event` (lines 236–250): expire, evaluate the
condition on the singleton binding, and on success add the singleton match
and notify the parent. -/
def leafHandleEvent : Nat → EvalState → Nat → Event → EvalState
  | 0, s, _, _ => setStuck s
  | fuel + 1, s, leafId, event =>
    if s.stuck then s
    else
      let s := cleanExpired fuel s leafId event.timestamp
      if s.stuck then s
      else
        let n := getNode s leafId
        match n.condition.eval [(n.eventName, event.payload)] with
        | none => setStuck s
        | some false => s
        | some true =>
          let s := addPartialMatchNode s leafId (mkPartialMatch [event])
          match (getNode s leafId).parent with
          | some p => handleNewPartialMatch fuel s p leafId
          | none => s
termination_by structural fuel => fuel

end

/-- The output match stream (`misc/IOUtils.py` is not under `src/`).
Modelled from the spec: a sink accepting `PatternMatch(events)`, closed
exactly once at EOF; `closeCount` counts the `close()` calls. -/
structure OutStream where
  items : List PatternMatch := []
  closeCount : Nat := 0
deriving DecidableEq, Repr

/-- `Tree.get_matches` (lines 829–831) plus the engine's per-event drain
(lines 869–870): pop every buffered root match, wrapping each one's events
in a `PatternMatch`. -/
def drainMatches (s : EvalState) (rootId : Nat) (out : OutStream) :
    EvalState × OutStream :=
  let n := getNode s rootId
  (modifyNode s rootId (fun nd => { nd with partialMatches := [] }),
   { out with items := out.items ++ n.partialMatches.map (fun pm => ⟨pm.events⟩) })

/-- `Tree.handle_EOF` (lines 815–824): emit the root's
`matches_to_handle_at_EOF` and then the first-last negative node's
`waiting_for_time_out`. -/
def handleEOF (s : EvalState) (rootId : Nat) (out : OutStream) : OutStream :=
  let afterEOF := { out with
    items := out.items ++
      (getNode s rootId).matchesToHandleAtEOF.map
        (fun pm : PartialMatch => PatternMatch.mk pm.events) }
  { afterEOF with
    items := afterEOF.items ++
      (getNode s (getFirstLastNegativeNode (s.count + 1) s rootId)).waitingForTimeOut.map
        (fun pm : PartialMatch => PatternMatch.mk pm.events) }

/-- One event delivered to its listening leaves in order, draining the
root after each `handle_event` (lines 865–870).  An exception inside
`handle_event` propagates at once: the remaining drains and deliveries of
lines 865–870 are not reached, so a stuck state aborts the walk with the
output stream as it stood. -/
def processEventLeaves (fuel : Nat) (s : EvalState) (rootId : Nat)
    (out : OutStream) (event : Event) : List Nat → EvalState × OutStream
  | [] => (s, out)
  | leafId :: rest =>
    let s1 := leafHandleEvent fuel s leafId event
    if s1.stuck then (s1, out)
    else
      let p := drainMatches s1 rootId out
      processEventLeaves fuel p.1 rootId p.2 event rest

/-- The event loop of `TreeBasedEvaluationMechanism.eval` over the
registered listeners; a propagating exception (stuck state) aborts the
remaining iterations. -/
def processEvents (fuel : Nat) (s : EvalState) (rootId : Nat)
    (listeners : List (Nat × String)) (out : OutStream) :
    List Event → EvalState × OutStream
  | [] => (s, out)
  | e :: rest =>
    let p := processEventLeaves fuel s rootId out e
      ((listeners.filter (fun l => l.2 == e.eventType)).map Prod.fst)
    if p.1.stuck then p
    else processEvents fuel p.1 rootId listeners p.2 rest

/-- The root test of lines 874–875: a negation node with `is_last`. -/
def isRootNegationLast (s : EvalState) (rootId : Nat) : Bool :=
  let n := getNode s rootId
  ((n.kind == .postProcessing) || (n.kind == .firstChance)) && n.isLast

/-- `TreeBasedEvaluationMechanism.eval` (lines 854–878): register the
leaves by event type, feed the stream, flush the EOF matches when the root
is a trailing negation node, and close the output stream once.
`matches.close()` is the last statement, with no exception handler: an
exception raised in the event loop propagates out of `eval`, so on a stuck
run neither the EOF flush nor the close is reached. -/
def evalMechanism (fuel : Nat) (s : EvalState) (rootId : Nat)
    (events : List Event) (out : OutStream) : EvalState × OutStream :=
  let listeners := (getLeaves (s.count + 1) s rootId).map
    (fun l => (l, (getNode s l).eventType))
  let p := processEvents fuel s rootId listeners out events
  if p.1.stuck then p
  else
    let out2 := if isRootNegationLast p.1 rootId then handleEOF p.1 rootId p.2 else p.2
    (p.1, { out2 with closeCount := out2.closeCount + 1 })

/-- A tree-shape descriptor: `int | (left, right)` (spec §6). -/
inductive TreeStruct where
  | leaf (i : Nat)
  | node (l r : TreeStruct)
deriving DecidableEq, Repr

/-- One entry of the origin pattern (`base/PatternStructure.py` is not
under `src/`).  Modelled from the spec: the origin ordering carries the
positive placeholders and the negated ones in source position; a negated
entry stands for the `NegationOperator` wrapping its placeholder. -/
inductive OriginEntry where
  | positive (q : QItem)
  | negative (q : QItem)
deriving DecidableEq, Repr

/-- The pattern (`base/Pattern.py` is not under `src/`).  Modelled from
the spec: `(structure, predicate, window, …)` where `structure` carries
the top operator and the positive placeholders, `origin_structure` the
source ordering of all placeholders, and `negative_event` the negated
placeholders in source order. -/
structure CEPPattern where
  structOp : TopOperator
  structArgs : List QItem
  originOp : TopOperator
  origin : List OriginEntry
  negatives : List QItem
  condition : Formula
  window : Option Int
deriving Repr

/-- `set_subtrees` (lines 315–322): record the children and derive
`_event_defs` — concatenation for `AndNode`, merge by arrival slot for
`SeqNode` (line 409–411), merge by pattern position for negation nodes
(lines 457–459). -/
def setSubtrees (s : EvalState) (cur leftId rightId : Nat) : EvalState :=
  let ld := getEventDefinitions (s.count + 1) s leftId
  let rd := getEventDefinitions (s.count + 1) s rightId
  let n := getNode s cur
  let defs :=
    match n.kind with
    | .seqNode => merge (fun d : EventDef => d.1) ld rd
    | .firstChance | .postProcessing => merge getIndex ld rd
    | _ => ld ++ rd
  modifyNode s cur (fun nd =>
    { nd with left := some leftId, right := some rightId, eventDefs := defs })

/-- `Tree.__construct_tree` (lines 833–843): recursive descent over the
shape, leaves from the positive placeholder list (an out-of-range index —
a Python `IndexError` — yields a placeholder-free leaf; the claims only
exercise in-range shapes). -/
def constructTree (isSequence : Bool) (args : List QItem) (window : Option Int) :
    TreeStruct → Option Nat → EvalState → EvalState × Nat
  | .leaf i, parent, s =>
    let q := args.getD i ⟨"", "", 0⟩
    newNode s { kind := .leafNode, parent := parent, slidingWindow := window
                leafIndex := i, eventName := q.name, eventType := q.eventType
                qitemIndex := q.index }
  | .node lst rst, parent, s =>
    let p1 := newNode s { kind := if isSequence then .seqNode else .andNode
                          parent := parent, slidingWindow := window }
    let p2 := constructTree isSequence args window lst (some p1.2) p1.1
    let p3 := constructTree isSequence args window rst (some p1.2) p2.1
    (setSubtrees p3.1 p1.2 p2.2 p3.2, p1.2)

/-- `apply_formula` (lines 222–225 for leaves, 298–303 for internal
nodes): project the condition and recurse with the projected condition. -/
def applyFormula : Nat → EvalState → Nat → Formula → EvalState
  | 0, s, _, _ => setStuck s
  | fuel + 1, s, i, formula =>
    let n := getNode s i
    match n.kind with
    | .leafNode =>
      match formula.getFormulaOf [n.eventName] with
      | some c => modifyNode s i (fun nd => { nd with condition := c })
      | none => s
    | _ =>
      let names := n.eventDefs.map (fun d => d.2.name)
      let cond := (formula.getFormulaOf names).getD .trueFormula
      let s := modifyNode s i (fun nd => { nd with condition := cond })
      let s :=
        match (getNode s i).left with
        | some l => applyFormula fuel s l cond
        | none => s
      match (getNode s i).right with
      | some r => applyFormula fuel s r cond
      | none => s

/-- `find_positive_events_before` (`src/misc/Utils.py` lines 243–251):
names of the positive placeholders before the given negated one in the
origin ordering. -/
def findPositiveEventsBefore (p : QItem) : List OriginEntry → List String
  | [] => []
  | .negative q :: rest =>
    if q = p then [] else findPositiveEventsBefore p rest
  | .positive q :: rest => q.name :: findPositiveEventsBefore p rest

/-- The loop body of `create_PostProcessing_Tree` (lines 784–807): splice
each negated placeholder's `PostProcessingNode` above the current root
(the `counter` is compared and then possibly incremented, so `is_first`
holds exactly for the run of leading negations). -/
def ppLoop (pattern : CEPPattern) :
    EvalState → Nat → Nat → List QItem → EvalState × Nat
  | s, tempRoot, _, [] => (s, tempRoot)
  | s, tempRoot, counter, p :: rest =>
    let isFirstFlag := pattern.origin.getD counter (.positive ⟨"", "", 0⟩) ==
      OriginEntry.negative p
    let isLastFlag := pattern.negatives.length - pattern.negatives.indexOf p =
      pattern.origin.length - pattern.origin.indexOf (.negative p)
    let flags : Bool × Bool × Nat :=
      if isFirstFlag then (true, false, counter + 1)
      else if isLastFlag then (false, true, counter)
      else (false, false, counter)
    let p1 := newNode s { kind := .postProcessing, slidingWindow := pattern.window
                          isFirst := flags.1, isLast := flags.2.1
                          topOperator := pattern.originOp }
    let p2 := newNode p1.1 { kind := .leafNode, parent := some p1.2
                             slidingWindow := pattern.window, leafIndex := 1
                             eventName := p.name, eventType := p.eventType
                             qitemIndex := p.index }
    let s := setSubtrees p2.1 p1.2 tempRoot p2.2
    let s := modifyNode s p2.2 (fun nd => { nd with parent := some p1.2 })
    let s := modifyNode s tempRoot (fun nd => { nd with parent := some p1.2 })
    let names := (getNode s p1.2).eventDefs.map (fun d => d.2.name)
    let cond := (pattern.condition.getFormulaOf names).getD .trueFormula
    let s := modifyNode s p1.2 (fun nd => { nd with condition := cond })
    ppLoop pattern s p1.2 flags.2.2 rest

/-- `create_PostProcessing_Tree` (lines 774–810). -/
def createPostProcessingTree (s : EvalState) (tempRoot : Nat)
    (pattern : CEPPattern) : EvalState × Nat :=
  ppLoop pattern s tempRoot 0 pattern.negatives

/-- The search of lines 734–769 for the splice point: climb from the
deepest leaf until the node's event-definition names contain the
dependency set (`none` when the climb runs off the root, where Python
would crash on `None`). -/
def fcFindSpot : Nat → EvalState → List String → Nat → Option Nat
  | 0, _, _, _ => none
  | fuel + 1, s, depset, nodeId =>
    let names := (getEventDefinitions (s.count + 1) s nodeId).map (fun d => d.2.name)
    if depset.all (fun e => names.contains e) then some nodeId
    else
      match (getNode s nodeId).parent with
      | some p => fcFindSpot fuel s depset p
      | none => none

/-- Lines 739–740: climb past the `FirstChanceNode`s already sitting on
the spot. -/
def fcClimb : Nat → EvalState → Nat → Nat
  | 0, _, i => i
  | fuel + 1, s, i =>
    match (getNode s i).parent with
    | some p => if (getNode s p).kind = .firstChance then fcClimb fuel s p else i
    | none => i

/-- The loop body of `create_FirstChanceNegation_Tree` (lines 717–769).
The source resets `counter` to 0 on every iteration (line 737), so the
`is_first` test always compares against `origin_event_list[0]`; this quirk
is preserved. -/
def fcBuildLoop (pattern : CEPPattern) (positiveRoot : Nat) :
    EvalState → Nat → List QItem → EvalState × Nat
  | s, node, [] => (s, node)
  | s, _, p :: rest =>
    let depset0 :=
      match pattern.condition.getEventsInAConditionWith p.name with
      | some f => f.getAllTerms
      | none => []
    let depset1 :=
      if pattern.originOp = .seqOp then
        depset0 ++ findPositiveEventsBefore p pattern.origin
      else depset0
    let depset := depset1.filter (fun nm => nm ≠ p.name)
    match getDeepestLeave (s.count + 1) s positiveRoot with
    | none => (setStuck s, positiveRoot)
    | some startNode =>
      match fcFindSpot (s.count + 1) s depset startNode with
      | none => (setStuck s, positiveRoot)
      | some found =>
        let spot := fcClimb (s.count + 1) s found
        let isFirstFlag := pattern.origin.getD 0 (.positive ⟨"", "", 0⟩) ==
          OriginEntry.negative p
        let isLastFlag := pattern.negatives.length - pattern.negatives.indexOf p =
          pattern.origin.length - pattern.origin.indexOf (.negative p)
        let flags : Bool × Bool :=
          if isFirstFlag then (true, false)
          else if isLastFlag then (false, true)
          else (false, false)
        let p1 := newNode s { kind := .firstChance, slidingWindow := pattern.window
                              isFirst := flags.1, isLast := flags.2
                              topOperator := pattern.originOp }
        let p2 := newNode p1.1 { kind := .leafNode, parent := some p1.2
                                 slidingWindow := pattern.window, leafIndex := 1
                                 eventName := p.name, eventType := p.eventType
                                 qitemIndex := p.index }
        let s := applyFormula (p2.1.count + 1) p2.1 p2.2 pattern.condition
        let s := setSubtrees s p1.2 spot p2.2
        let s := modifyNode s p2.2 (fun nd => { nd with parent := some p1.2 })
        let spotParent := (getNode s spot).parent
        let s := modifyNode s p1.2 (fun nd => { nd with parent := spotParent })
        let s := modifyNode s spot (fun nd => { nd with parent := some p1.2 })
        let s :=
          match spotParent with
          | some pp =>
            match (getNode s pp).right with
            | some r => setSubtrees s pp p1.2 r
            | none => setStuck s
          | none => s
        let names := (getNode s p1.2).eventDefs.map (fun d => d.2.name)
        let cond := (pattern.condition.getFormulaOf names).getD .trueFormula
        let s := modifyNode s p1.2 (fun nd => { nd with condition := cond })
        fcBuildLoop pattern positiveRoot s p1.2 rest

/-- `create_FirstChanceNegation_Tree` (lines 706–772): at the end the
root is recomputed from the last spliced node (`node.get_root()`). -/
def createFirstChanceTree (s : EvalState) (positiveRoot : Nat)
    (pattern : CEPPattern) : EvalState × Nat :=
  let p := fcBuildLoop pattern positiveRoot s positiveRoot pattern.negatives
  match getRoot p.1 p.2 with
  | some r => (p.1, r)
  | none => (setStuck p.1, p.2)

/-- The negation mode (`EvaluationMechanism.py` is not under `src/`).
Modelled from the spec: the enumeration `{POST_PROCESSING, FIRST_CHANCE}`. -/
inductive NegationMode where
  | postProcessing
  | firstChance
deriving DecidableEq, Repr

/-- The empty arena. -/
def emptyState : EvalState :=
  { nodeMap := fun _ => { kind := .leafNode }, count := 0, stuck := false }

/-- `Tree.__init__` (lines 687–704): build the positive tree, apply the
pattern condition, then splice the negation nodes according to the mode. -/
def buildTree (mode : NegationMode) (pattern : CEPPattern)
    (treeStructure : TreeStruct) : EvalState × Nat :=
  let p := constructTree (pattern.structOp == .seqOp) pattern.structArgs
    pattern.window treeStructure none emptyState
  let s := applyFormula (p.1.count + 1) p.1 p.2 pattern.condition
  match mode with
  | .postProcessing => createPostProcessingTree s p.2 pattern
  | .firstChance => createFirstChanceTree s p.2 pattern

/-- The whole pipeline: build the tree for the mode and run the event
stream through `TreeBasedEvaluationMechanism.eval` on a fresh output
stream. -/
def runCEP (fuel : Nat) (mode : NegationMode) (pattern : CEPPattern)
    (treeStructure : TreeStruct) (events : List Event) :
    EvalState × OutStream :=
  let p := buildTree mode pattern treeStructure
  evalMechanism fuel p.1 p.2 events {}

/-- The event lists of the emitted matches. -/
def outputEvents (out : OutStream) : List (List Event) :=
  out.items.map PatternMatch.events

/-- The per-node observables named by the expiration claims:
`partial_matches`, `waiting_for_time_out`, `matches_to_handle_at_EOF` and
`check_expired_timestamp` of every node. -/
def observables (s : EvalState) :
    List (List PartialMatch × List PartialMatch × List PartialMatch ×
      List (Int × PartialMatch)) :=
  (List.range s.count).map (fun i =>
    let n := getNode s i
    (n.partialMatches, n.waitingForTimeOut, n.matchesToHandleAtEOF,
      n.checkExpiredTimestamp))

/-- A one-leaf state for exercising `LeafNode.handle_event`. -/
def c7State : EvalState :=
  { nodeMap := fun _ =>
      { kind := .leafNode
        slidingWindow := some 5
        eventName := "b"
        eventType := "B"
        condition := .gtF (.identifier "b") (.atomic 0) }
    count := 1
    stuck := false }

/-- `AND(A, NOT B)` with window 5: its trailing negation handler reaches
the `AndOperator` branch of `InternalNegationNode._try_create_new_match`,
which raises `NotImplementedError` (lines 479–483). -/
def c6CounterPattern : CEPPattern :=
  { structOp := .andOp
    structArgs := [⟨"A", "a", 0⟩]
    originOp := .andOp
    origin := [.positive ⟨"A", "a", 0⟩, .negative ⟨"B", "b", 1⟩]
    negatives := [⟨"B", "b", 1⟩]
    condition := .gtF (.atomic 1) (.atomic 0)
    window := some 5 }

/-- `SEQ(B, NOT A)` with window 5: the post-processing tree's root is a
trailing negation node. -/
def c6Pattern : CEPPattern :=
  { structOp := .seqOp
    structArgs := [⟨"B", "b", 0⟩]
    originOp := .seqOp
    origin := [.positive ⟨"B", "b", 0⟩, .negative ⟨"A", "a", 1⟩]
    negatives := [⟨"A", "a", 1⟩]
    condition := .gtF (.atomic 1) (.atomic 0)
    window := some 5 }

def c6S : EvalState := (buildTree .postProcessing c6Pattern (.leaf 0)).1

def c6Root : Nat := (buildTree .postProcessing c6Pattern (.leaf 0)).2

def c6Run : EvalState × OutStream :=
  processEvents 10 c6S c6Root
    ((getLeaves (c6S.count + 1) c6S c6Root).map (fun l => (l, (getNode c6S l).eventType)))
    {} [evAt "B" 0 0]

/-- `SEQ(NOT A, B)` with window 5 and an always-true projected condition. -/
def c1Pattern : CEPPattern :=
  { structOp := .seqOp
    structArgs := [⟨"B", "b", 1⟩]
    originOp := .seqOp
    origin := [.negative ⟨"A", "a", 0⟩, .positive ⟨"B", "b", 1⟩]
    negatives := [⟨"A", "a", 0⟩]
    condition := .gtF (.atomic 1) (.atomic 0)
    window := some 5 }

def c1Stream : List Event := [evAt "A" 0 0, evAt "B" 3 0, evAt "B" 7 0]

/-- A negation-free pattern for the C1 witness. -/
def c1WitnessPattern : CEPPattern :=
  { structOp := .seqOp
    structArgs := [⟨"B", "b", 0⟩]
    originOp := .seqOp
    origin := [.positive ⟨"B", "b", 0⟩]
    negatives := []
    condition := .trueFormula
    window := some 5 }

/-- A node record with its `partial_matches` store blanked: equality of
blanked records says an operation touched nothing but the store. -/
def NodeData.blankStore (nd : NodeData) : NodeData := { nd with partialMatches := [] }

/-- Two arena states with the same node count whose records agree outside
the `partial_matches` stores. -/
def SameShape (s t : EvalState) : Prop :=
  s.count = t.count ∧ ∀ j, (getNode s j).blankStore = (getNode t j).blankStore

/-- The per-`FirstChanceNode` precondition of the expiration scan: a
finite window on the node and its right child, a sorted right store, and —
the crucial restriction — no `check_expired_timestamp` entry strictly
below the cutoff (no blocked match pending re-admission). -/
def FCReady (s : EvalState) (ts : Int) (fcId : Nat) : Prop :=
  (∃ w, (getNode s fcId).slidingWindow = some w) ∧
  (∀ e ∈ (getNode s fcId).checkExpiredTimestamp, ¬ e.1 < ts) ∧
  ∃ r, (getNode s fcId).right = some r ∧
    (∃ wr, (getNode s r).slidingWindow = some wr) ∧
    SortedByFt (getNode s r).partialMatches

/-- The first-chance tree of `SEQ(NOT A, B)` after `A@0, B@3`: the `A@0`
invalidation leaves `(5, B@3)` pending in `check_expired_timestamp`. -/
def c8RunState : EvalState :=
  (runCEP 40 .firstChance c1Pattern (.leaf 0) [evAt "A" 0 0, evAt "B" 3 0]).1

/-- A one-leaf state with one expired and one live match for the C8
witness. -/
def c8WitnessState : EvalState :=
  { nodeMap := fun _ =>
      { kind := .leafNode
        slidingWindow := some 5
        partialMatches := [pmAt 0 0, pmAt 7 0] }
    count := 1
    stuck := false }

lemma sortedByFt_cons {a : PartialMatch} {t : List PartialMatch} (hs : SortedByFt (a :: t)) :
    (∀ b ∈ t, a.firstTimestamp ≤ b.firstTimestamp) ∧ SortedByFt t :=
  List.pairwise_cons.mp hs

lemma countBefore_get_iff {ts : Int} {l : List PartialMatch} (hs : SortedByFt l) :
    ∀ (i : Nat) (hi : i < l.length),
      ((l.get ⟨i, hi⟩).firstTimestamp < ts ↔ i < countBefore l ts) := by
  induction l with
  | nil => intro i hi; simp at hi
  | cons a t ih =>
    obtain ⟨ha, hst⟩ := sortedByFt_cons hs
    intro i hi
    by_cases hc : a.firstTimestamp < ts
    · have hcount : countBefore (a :: t) ts = countBefore t ts + 1 := by
        simp [countBefore, List.countP_cons_of_pos, hc]
      cases i with
      | zero =>
        simp only [List.get, hcount]
        exact ⟨fun _ => Nat.succ_pos _, fun _ => hc⟩
      | succ j =>
        have hj : j < t.length := by simpa using hi
        simpa [hcount] using ih hst j hj
    · have hge : ∀ pm ∈ a :: t, ¬ pm.firstTimestamp < ts := by
        intro pm hpm
        rcases List.mem_cons.mp hpm with h | h
        · subst h; exact hc
        · have := ha pm h; omega
      have hcount : countBefore (a :: t) ts = 0 := by
        simp only [countBefore, List.countP_eq_zero]
        intro pm hpm
        simpa using hge pm hpm
      constructor
      · intro hlt
        exact absurd hlt (hge _ (List.get_mem _ _ _))
      · intro hcontra
        omega

lemma pyGet_nat {l : List PartialMatch} {i : Nat} (h : i < l.length) :
    pyGet l (i : Int) = some (l.get ⟨i, h⟩) := by
  have h0 : ¬ ((i : Int) < 0) := by omega
  simp only [pyGet, if_neg h0, Int.toNat_ofNat]
  exact List.get?_eq_get h

lemma pyGet_neg_one {l : List PartialMatch} (h : 0 < l.length) :
    pyGet l (-1) = some (l.get ⟨l.length - 1, by omega⟩) := by
  have h1 : ¬ ((l.length : Int) + (-1) < 0) := by omega
  have h2 : ((l.length : Int) + (-1)).toNat = l.length - 1 := by omega
  simp only [pyGet, if_pos (by norm_num : (-1 : Int) < 0), if_neg h1, h2]
  exact List.get?_eq_get (by omega)

lemma pyGet_nat_sub_one {l : List PartialMatch} {i : Nat} (h0 : 0 < i) (h : i < l.length) :
    pyGet l ((i : Int) - 1) = some (l.get ⟨i - 1, by omega⟩) := by
  have h1 : ((i : Int) - 1) = ((i - 1 : Nat) : Int) := by omega
  rw [h1, pyGet_nat (by omega)]

lemma findAux_eq {pms : List PartialMatch} {ts : Int} (hs : SortedByFt pms)
    (hk1 : 1 ≤ countBefore pms ts) :
    ∀ (n start en : Nat), en + 1 - start ≤ n → start ≤ countBefore pms ts →
      countBefore pms ts ≤ en → en < pms.length →
      findAux pms ts n start en = .ok (countBefore pms ts) := by
  intro n
  induction n with
  | zero =>
    intro start en hn h1 h2 h3
    omega
  | succ n ih =>
    intro start en hn h1 h2 h3
    have hse : start ≤ en := le_trans h1 h2
    have hdm := Nat.div_add_mod (start + en) 2
    have hml : (start + en) % 2 < 2 := Nat.mod_lt _ (by norm_num)
    have hmid1 : start ≤ (start + en) / 2 := by omega
    have hmid2 : (start + en) / 2 ≤ en := by omega
    have hmidlen : (start + en) / 2 < pms.length := by omega
    rw [findAux, if_pos hse]
    by_cases hm0 : (start + en) / 2 = 0
    · -- mid = 0: m' is the last element (Python index -1), which is ≥ ts,
      -- and m = pms[0] < ts, so the search moves right.
      simp only [hm0]
      have h0len : (0 : Nat) < pms.length := by omega
      rw [show ((0 : Nat) : Int) - 1 = -1 by norm_num]
      simp only [pyGet_nat h0len, pyGet_neg_one h0len]
      have hmlt : (pms.get ⟨0, h0len⟩).firstTimestamp < ts :=
        (countBefore_get_iff hs 0 h0len).mpr (by omega)
      have hlast : ¬ (pms.get ⟨pms.length - 1, by omega⟩).firstTimestamp < ts := by
        intro hcon
        have := (countBefore_get_iff hs (pms.length - 1) (by omega)).mp hcon
        omega
      rw [if_neg (by tauto), if_pos (by exact hmlt)]
      exact ih 1 en (by omega) (by omega) h2 h3
    · have hpos : 0 < (start + en) / 2 := by omega
      simp only [pyGet_nat hmidlen, pyGet_nat_sub_one hpos hmidlen]
      rcases lt_trichotomy ((start + en) / 2) (countBefore pms ts) with hlt | heq | hgt
      · -- mid < k: pms[mid] < ts, move right
        have hmlt : (pms.get ⟨(start + en) / 2, hmidlen⟩).firstTimestamp < ts :=
          (countBefore_get_iff hs _ hmidlen).mpr hlt
        rw [if_neg (by intro hcon; omega), if_pos hmlt]
        exact ih ((start + en) / 2 + 1) en (by omega) (by omega) (by omega) h3
      · -- mid = k: the crossing index is found
        have hm' : (pms.get ⟨(start + en) / 2 - 1, by omega⟩).firstTimestamp < ts :=
          (countBefore_get_iff hs _ (by omega)).mpr (by omega)
        have hm : ¬ (pms.get ⟨(start + en) / 2, hmidlen⟩).firstTimestamp < ts := by
          intro hcon
          have := (countBefore_get_iff hs _ hmidlen).mp hcon
          omega
        rw [if_pos ⟨hm', by omega⟩]
        exact congrArg Except.ok heq
      · -- k < mid: pms[mid-1] ≥ ts, move left
        have hm' : ¬ (pms.get ⟨(start + en) / 2 - 1, by omega⟩).firstTimestamp < ts := by
          intro hcon
          have := (countBefore_get_iff hs _ (by omega)).mp hcon
          omega
        have hm : ¬ (pms.get ⟨(start + en) / 2, hmidlen⟩).firstTimestamp < ts := by
          intro hcon
          have := (countBefore_get_iff hs _ hmidlen).mp hcon
          omega
        rw [if_neg (by tauto), if_neg (by omega), if_neg hm0]
        exact ih start ((start + en) / 2 - 1) (by omega) h1 (by omega) (by omega)

lemma findPartialMatchByTimestamp_correct (pms : List PartialMatch) (ts : Int)
    (hs : SortedByFt pms) :
    findPartialMatchByTimestamp pms ts = .ok (countBefore pms ts) := by
  match hpm : pms with
  | [] => rfl
  | first :: rest =>
    rw [findPartialMatchByTimestamp]
    obtain ⟨ha, _⟩ := sortedByFt_cons hs
    by_cases h0 : first.firstTimestamp ≥ ts
    · rw [if_pos h0]
      have : countBefore (first :: rest) ts = 0 := by
        simp only [countBefore, List.countP_eq_zero]
        intro pm hpm'
        rcases List.mem_cons.mp hpm' with h | h
        · subst h; simp; omega
        · have := ha pm h; simp; omega
      rw [this]
    · rw [if_neg h0]
      by_cases h1 : (first :: rest).length = 1
      · rw [if_pos h1]
        have hr : rest = [] := by
          cases rest with
          | nil => rfl
          | cons b t => simp at h1
        subst hr
        have : countBefore [first] ts = 1 := by
          have hlt : first.firstTimestamp < ts := by omega
          simp [countBefore, hlt]
        rw [this]
      · rw [if_neg h1]
        have hne : (first :: rest) ≠ [] := by simp
        have hlenpos : 0 < (first :: rest).length := by simp
        obtain ⟨lastPm, hlast⟩ : ∃ lp, (first :: rest).getLast? = some lp := by
          cases hgl : (first :: rest).getLast? with
          | none => simp [List.getLast?_eq_none_iff] at hgl
          | some lp => exact ⟨lp, rfl⟩
        rw [hlast]
        dsimp only
        have hlastget : lastPm = (first :: rest).get ⟨(first :: rest).length - 1, by omega⟩ := by
          have := List.getLast?_eq_get? (first :: rest)
          rw [hlast] at this
          have h2 := List.get?_eq_get (l := first :: rest) (n := (first :: rest).length - 1) (by omega)
          rw [h2] at this
          exact Option.some.inj this
        by_cases h2 : lastPm.firstTimestamp < ts
        · rw [if_pos h2]
          have : countBefore (first :: rest) ts = (first :: rest).length := by
            simp only [countBefore]
            apply List.countP_eq_length.mpr
            intro pm hpm'
            simp only [decide_eq_true_eq]
            -- every element is ≤ the last, which is < ts
            obtain ⟨i, hget⟩ := List.mem_iff_get.mp hpm'
            rw [← hget]
            by_cases hil : (i : Nat) = (first :: rest).length - 1
            · have hieq : i = ⟨(first :: rest).length - 1, by omega⟩ := Fin.ext hil
              rw [hieq, ← hlastget]
              exact h2
            · have hilt : (i : Nat) < (first :: rest).length - 1 := by
                have := i.isLt
                omega
              have hrel := (List.pairwise_iff_get.mp hs) i ⟨(first :: rest).length - 1, by omega⟩
                (by exact hilt)
              rw [← hlastget] at hrel
              omega
          rw [this]
        · rw [if_neg h2]
          have hk1 : 1 ≤ countBefore (first :: rest) ts := by
            have : (first :: rest).countP (fun pm => decide (pm.firstTimestamp < ts)) ≠ 0 := by
              intro hzero
              have := List.countP_eq_zero.mp hzero first (by simp)
              simp at this
              omega
            unfold countBefore
            omega
          have hkle : countBefore (first :: rest) ts ≤ (first :: rest).length - 1 := by
            by_contra hcon
            have hkx : (first :: rest).length - 1 < countBefore (first :: rest) ts := by omega
            have := (countBefore_get_iff hs ((first :: rest).length - 1) (by omega)).mpr hkx
            rw [← hlastget] at this
            omega
          exact findAux_eq hs hk1 ((first :: rest).length + 1) 0 ((first :: rest).length - 1)
            (by omega) (by omega) hkle (by omega)

lemma mergeAux_nil_left {α β : Type} [LinearOrder β] (key : α → β) (f : Nat)
    (l2 : List α) : mergeAux key f [] l2 = l2 := by
  cases f <;> rfl

lemma mergeAux_nil_right {α β : Type} [LinearOrder β] (key : α → β) (f : Nat)
    (a : α) (t1 : List α) : mergeAux key f (a :: t1) [] = a :: t1 := by
  cases f <;> rfl

lemma mergeAux_congr_fuel {α β : Type} [LinearOrder β] (key : α → β) :
    ∀ (f1 f2 : Nat) (l1 l2 : List α), l1.length + l2.length ≤ f1 →
      l1.length + l2.length ≤ f2 → mergeAux key f1 l1 l2 = mergeAux key f2 l1 l2 := by
  intro f1
  induction f1 with
  | zero =>
    intro f2 l1 l2 h1 h2
    cases l1 with
    | nil => rw [mergeAux_nil_left, mergeAux_nil_left]
    | cons a t1 =>
      cases l2 with
      | nil => rw [mergeAux_nil_right, mergeAux_nil_right]
      | cons b t2 => simp at h1
  | succ f ih =>
    intro f2 l1 l2 h1 h2
    cases l1 with
    | nil => rw [mergeAux_nil_left, mergeAux_nil_left]
    | cons a t1 =>
      cases l2 with
      | nil => rw [mergeAux_nil_right, mergeAux_nil_right]
      | cons b t2 =>
        cases f2 with
        | zero => simp at h2
        | succ f2' =>
          rw [mergeAux, mergeAux]
          by_cases hk : key a < key b
          · rw [if_pos hk, if_pos hk, ih f2' t1 (b :: t2) (by simp at h1 ⊢; omega)
              (by simp at h2 ⊢; omega)]
          · rw [if_neg hk, if_neg hk, ih f2' (a :: t1) t2 (by simp at h1 ⊢; omega)
              (by simp at h2 ⊢; omega)]

lemma merge_nil_left {α β : Type} [LinearOrder β] (key : α → β) (l2 : List α) :
    merge key [] l2 = l2 := by
  rw [merge]
  exact mergeAux_nil_left key _ l2

lemma merge_nil_right {α β : Type} [LinearOrder β] (key : α → β) (a : α) (t1 : List α) :
    merge key (a :: t1) [] = a :: t1 := by
  rw [merge]
  exact mergeAux_nil_right key _ a t1

lemma merge_cons_cons {α β : Type} [LinearOrder β] (key : α → β) (a b : α)
    (t1 t2 : List α) :
    merge key (a :: t1) (b :: t2) =
      if key a < key b then a :: merge key t1 (b :: t2)
      else b :: merge key (a :: t1) t2 := by
  rw [merge]
  have hlen : (a :: t1).length + (b :: t2).length = (t1.length + (b :: t2).length) + 1 := by
    simp only [List.length_cons]
    omega
  rw [hlen, mergeAux]
  by_cases hk : key a < key b
  · rw [if_pos hk, if_pos hk, merge]
  · rw [if_neg hk, if_neg hk, merge]
    rw [mergeAux_congr_fuel key (t1.length + (b :: t2).length) ((a :: t1).length + t2.length)
      (a :: t1) t2 (by simp only [List.length_cons]; omega)
      (by simp only [List.length_cons]; omega)]

lemma merge_perm {α β : Type} [LinearOrder β] (key : α → β) :
    ∀ (l1 l2 : List α), (merge key l1 l2).Perm (l1 ++ l2) := by
  intro l1
  induction l1 with
  | nil => intro l2; rw [merge_nil_left]; simp
  | cons a t1 ih1 =>
    intro l2
    induction l2 with
    | nil => rw [merge_nil_right]; simp
    | cons b t2 ih2 =>
      rw [merge_cons_cons]
      by_cases hab : key a < key b
      · rw [if_pos hab]
        exact (List.Perm.cons a (ih1 (b :: t2)))
      · rw [if_neg hab]
        refine (List.Perm.cons b ih2).trans ?_
        exact (List.perm_middle).symm

lemma merge_length {α β : Type} [LinearOrder β] (key : α → β) (l1 l2 : List α) :
    (merge key l1 l2).length = l1.length + l2.length := by
  have := (merge_perm key l1 l2).length_eq
  simpa using this

lemma merge_sorted {α β : Type} [LinearOrder β] (key : α → β) :
    ∀ (l1 l2 : List α), l1.Pairwise (fun x y => key x ≤ key y) →
      l2.Pairwise (fun x y => key x ≤ key y) →
      (merge key l1 l2).Pairwise (fun x y => key x ≤ key y) := by
  intro l1
  induction l1 with
  | nil => intro l2 _ h2; rw [merge_nil_left]; exact h2
  | cons a t1 ih1 =>
    intro l2 h1 h2
    induction l2 with
    | nil => rw [merge_nil_right]; exact h1
    | cons b t2 ih2 =>
      obtain ⟨ha, ht1⟩ := List.pairwise_cons.mp h1
      obtain ⟨hb, ht2⟩ := List.pairwise_cons.mp h2
      rw [merge_cons_cons]
      by_cases hab : key a < key b
      · rw [if_pos hab]
        refine List.pairwise_cons.mpr ⟨?_, ih1 (b :: t2) ht1 h2⟩
        intro x hx
        have hx' : x ∈ t1 ++ b :: t2 := (merge_perm key t1 (b :: t2)).mem_iff.mp hx
        rcases List.mem_append.mp hx' with h | h
        · exact ha x h
        · rcases List.mem_cons.mp h with h | h
          · subst h; exact le_of_lt hab
          · exact le_trans (le_of_lt hab) (hb x h)
      · rw [if_neg hab]
        have hba : key b ≤ key a := le_of_not_lt hab
        refine List.pairwise_cons.mpr ⟨?_, ih2 ht2⟩
        intro x hx
        have hx' : x ∈ (a :: t1) ++ t2 := (merge_perm key (a :: t1) t2).mem_iff.mp hx
        rcases List.mem_append.mp hx' with h | h
        · rcases List.mem_cons.mp h with h | h
          · subst h; exact hba
          · exact le_trans hba (ha x h)
        · exact hb x h

lemma merge_filter_eq_key {α β : Type} [LinearOrder β] (key : α → β) :
    ∀ (l1 l2 : List α), l1.Pairwise (fun x y => key x ≤ key y) →
      l2.Pairwise (fun x y => key x ≤ key y) → ∀ v : β,
      (merge key l1 l2).filter (fun x => decide (key x = v)) =
        l2.filter (fun x => decide (key x = v)) ++ l1.filter (fun x => decide (key x = v)) := by
  intro l1
  induction l1 with
  | nil => intro l2 _ _ v; rw [merge_nil_left]; simp
  | cons a t1 ih1 =>
    intro l2 h1 h2 v
    induction l2 with
    | nil => rw [merge_nil_right]; simp
    | cons b t2 ih2 =>
      obtain ⟨ha, ht1⟩ := List.pairwise_cons.mp h1
      obtain ⟨hb, ht2⟩ := List.pairwise_cons.mp h2
      rw [merge_cons_cons]
      by_cases hab : key a < key b
      · rw [if_pos hab]
        rw [List.filter_cons]
        by_cases hav : key a = v
        · have hbempty : (b :: t2).filter (fun x => decide (key x = v)) = [] := by
            apply List.filter_eq_nil.mpr
            intro x hx
            simp only [decide_eq_true_eq]
            have hge : key b ≤ key x := by
              rcases List.mem_cons.mp hx with h | h
              · subst h; exact le_refl _
              · exact hb x h
            intro hcon
            rw [hcon, ← hav] at hge
            exact absurd (lt_of_lt_of_le hab hge) (lt_irrefl _)
          rw [ih1 (b :: t2) ht1 h2 v, hbempty]
          simp [hav]
        · rw [ih1 (b :: t2) ht1 h2 v]
          simp [hav]
      · rw [if_neg hab]
        rw [List.filter_cons]
        rw [ih2 ht2]
        by_cases hbv : key b = v
        · simp [hbv, List.filter_cons]
        · simp [hbv, List.filter_cons]

lemma mataF_nil_left {α γ β : Type} [LinearOrder β] (key : γ → β) (f : Nat)
    (l2 : List γ) (act1 act2 : List α) :
    mergeAccordingToAuxF key f [] l2 act1 act2 = act2 := by
  cases f <;> rfl

lemma mataF_cons_nil {α γ β : Type} [LinearOrder β] (key : γ → β) (f : Nat)
    (g : γ) (t : List γ) (act1 act2 : List α) :
    mergeAccordingToAuxF key f (g :: t) [] act1 act2 = act1 := by
  cases f <;> rfl

lemma mataF_mismatch1 {α γ β : Type} [LinearOrder β] (key : γ → β) (f : Nat)
    (g1 g2 : γ) (t1 t2 : List γ) (act2 : List α) :
    mergeAccordingToAuxF key (f + 1) (g1 :: t1) (g2 :: t2) [] act2 = [] := rfl

lemma mataF_mismatch2 {α γ β : Type} [LinearOrder β] (key : γ → β) (f : Nat)
    (g1 g2 : γ) (t1 t2 : List γ) (a1 : α) (u1 : List α) :
    mergeAccordingToAuxF key (f + 1) (g1 :: t1) (g2 :: t2) (a1 :: u1) [] = [] := rfl

lemma mataF_step {α γ β : Type} [LinearOrder β] (key : γ → β) (f : Nat)
    (g1 g2 : γ) (t1 t2 : List γ) (a1 a2 : α) (u1 u2 : List α) :
    mergeAccordingToAuxF key (f + 1) (g1 :: t1) (g2 :: t2) (a1 :: u1) (a2 :: u2) =
      if key g1 < key g2 then
        a1 :: mergeAccordingToAuxF key f t1 (g2 :: t2) u1 (a2 :: u2)
      else a2 :: mergeAccordingToAuxF key f (g1 :: t1) t2 (a1 :: u1) u2 := rfl

lemma mataF_congr_fuel {α γ β : Type} [LinearOrder β] (key : γ → β) :
    ∀ (f1 f2 : Nat) (l1 l2 : List γ) (act1 act2 : List α),
      l1.length + l2.length ≤ f1 → l1.length + l2.length ≤ f2 →
      mergeAccordingToAuxF key f1 l1 l2 act1 act2 =
        mergeAccordingToAuxF key f2 l1 l2 act1 act2 := by
  intro f1
  induction f1 with
  | zero =>
    intro f2 l1 l2 act1 act2 h1 h2
    cases l1 with
    | nil => rw [mataF_nil_left, mataF_nil_left]
    | cons g1 t1 =>
      cases l2 with
      | nil => rw [mataF_cons_nil, mataF_cons_nil]
      | cons g2 t2 => simp at h1
  | succ f ih =>
    intro f2 l1 l2 act1 act2 h1 h2
    cases l1 with
    | nil => rw [mataF_nil_left, mataF_nil_left]
    | cons g1 t1 =>
      cases l2 with
      | nil => rw [mataF_cons_nil, mataF_cons_nil]
      | cons g2 t2 =>
        cases f2 with
        | zero => simp at h2
        | succ f2' =>
          cases act1 with
          | nil => rw [mataF_mismatch1, mataF_mismatch1]
          | cons a1 u1 =>
            cases act2 with
            | nil => rw [mataF_mismatch2, mataF_mismatch2]
            | cons a2 u2 =>
              rw [mataF_step, mataF_step]
              by_cases hk : key g1 < key g2
              · rw [if_pos hk, if_pos hk,
                  ih f2' t1 (g2 :: t2) u1 (a2 :: u2)
                    (by simp only [List.length_cons] at h1 ⊢; omega)
                    (by simp only [List.length_cons] at h2 ⊢; omega)]
              · rw [if_neg hk, if_neg hk,
                  ih f2' (g1 :: t1) t2 (a1 :: u1) u2
                    (by simp only [List.length_cons] at h1 ⊢; omega)
                    (by simp only [List.length_cons] at h2 ⊢; omega)]

lemma mata_nil_left {α γ β : Type} [LinearOrder β] (key : γ → β)
    (l2 : List γ) (act1 act2 : List α) :
    mergeAccordingToAux key [] l2 act1 act2 = act2 := by
  rw [mergeAccordingToAux]
  exact mataF_nil_left key _ l2 act1 act2

lemma mata_cons_nil {α γ β : Type} [LinearOrder β] (key : γ → β)
    (g : γ) (t : List γ) (act1 act2 : List α) :
    mergeAccordingToAux key (g :: t) [] act1 act2 = act1 := by
  rw [mergeAccordingToAux]
  exact mataF_cons_nil key _ g t act1 act2

lemma mata_cons_cons {α γ β : Type} [LinearOrder β] (key : γ → β)
    (g1 g2 : γ) (t1 t2 : List γ) (a1 a2 : α) (u1 u2 : List α) :
    mergeAccordingToAux key (g1 :: t1) (g2 :: t2) (a1 :: u1) (a2 :: u2) =
      if key g1 < key g2 then
        a1 :: mergeAccordingToAux key t1 (g2 :: t2) u1 (a2 :: u2)
      else a2 :: mergeAccordingToAux key (g1 :: t1) t2 (a1 :: u1) u2 := by
  rw [mergeAccordingToAux]
  have hlen : (g1 :: t1).length + (g2 :: t2).length =
      (t1.length + (g2 :: t2).length) + 1 := by
    simp only [List.length_cons]
    omega
  rw [hlen, mataF_step]
  by_cases hk : key g1 < key g2
  · rw [if_pos hk, if_pos hk, mergeAccordingToAux]
  · rw [if_neg hk, if_neg hk, mergeAccordingToAux]
    rw [mataF_congr_fuel key (t1.length + (g2 :: t2).length)
      ((g1 :: t1).length + t2.length) (g1 :: t1) t2 (a1 :: u1) u2
      (by simp only [List.length_cons]; omega)
      (by simp only [List.length_cons]; omega)]

lemma mergeAccordingToAux_eq_zip {α γ β : Type} [LinearOrder β] (key : γ → β) :
    ∀ (l1 l2 : List γ) (act1 act2 : List α), l1.length = act1.length →
      l2.length = act2.length →
      mergeAccordingToAux key l1 l2 act1 act2 =
        ((merge (fun p => key p.1) (l1.zip act1) (l2.zip act2)).map Prod.snd) := by
  intro l1
  induction l1 with
  | nil =>
    intro l2 act1 act2 h1 h2
    rw [mata_nil_left]
    simp only [List.zip_nil_left, merge_nil_left]
    rw [List.map_snd_zip _ _ (by omega)]
  | cons g1 t1 ih1 =>
    intro l2 act1 act2 h1 h2
    cases act1 with
    | nil => simp at h1
    | cons a1 u1 =>
      revert h2
      revert act2
      induction l2 with
      | nil =>
        intro act2 h2
        rw [mata_cons_nil]
        simp only [List.zip_nil_left, List.zip_cons_cons, merge_nil_right, List.map_cons]
        rw [List.map_snd_zip t1 u1 (by simp at h1; omega)]
      | cons g2 t2 ih2 =>
        intro act2 h2
        cases act2 with
        | nil => simp at h2
        | cons a2 u2 =>
          rw [mata_cons_cons]
          simp only [List.zip_cons_cons, merge_cons_cons]
          by_cases hk : key g1 < key g2
          · rw [if_pos hk, if_pos hk]
            rw [List.map_cons]
            congr 1
            have := ih1 (g2 :: t2) u1 (a2 :: u2) (by simp at h1 ⊢; omega) h2
            rw [this, List.zip_cons_cons]
          · rw [if_neg hk, if_neg hk]
            rw [List.map_cons]
            congr 1
            have := ih2 u2 (by simp at h2 ⊢; omega)
            rw [this, List.zip_cons_cons]

lemma mergeAccordingTo_error_iff {α γ β : Type} [LinearOrder β] (key : γ → β)
    (l1 l2 : List γ) (act1 act2 : List α) :
    mergeAccordingTo key l1 l2 act1 act2 = .error () ↔
      (l1.length ≠ act1.length ∨ l2.length ≠ act2.length) := by
  rw [mergeAccordingTo]
  by_cases h : l1.length ≠ act1.length ∨ l2.length ≠ act2.length
  · rw [if_pos h]; simp [h]
  · rw [if_neg h]; simp [h]

lemma insertIdx_eq_take_cons_drop {α : Type} (a : α) :
    ∀ (k : Nat) (l : List α), k ≤ l.length →
      l.insertIdx k a = l.take k ++ a :: l.drop k := by
  intro k
  induction k with
  | zero => intro l _; simp [List.insertIdx]
  | succ n ih =>
    intro l hl
    cases l with
    | nil => simp at hl
    | cons b t =>
      simp only [List.insertIdx, List.take, List.drop, List.cons_append]
      have := ih t (by simpa using hl)
      simp only [List.insertIdx] at this
      rw [← this]
      rfl

lemma mem_take_countBefore_lt {ts : Int} :
    ∀ {l : List PartialMatch}, SortedByFt l →
      ∀ x ∈ l.take (countBefore l ts), x.firstTimestamp < ts := by
  intro l
  induction l with
  | nil => intro _ x hx; simp at hx
  | cons a t ih =>
    intro hs x hx
    obtain ⟨ha, ht⟩ := sortedByFt_cons hs
    by_cases hc : a.firstTimestamp < ts
    · have hcount : countBefore (a :: t) ts = countBefore t ts + 1 := by
        simp [countBefore, List.countP_cons_of_pos, hc]
      rw [hcount] at hx
      simp only [List.take] at hx
      rcases List.mem_cons.mp hx with h | h
      · subst h; exact hc
      · exact ih ht x h
    · have hcount : countBefore (a :: t) ts = 0 := by
        simp only [countBefore, List.countP_eq_zero]
        intro pm hpm
        rcases List.mem_cons.mp hpm with h | h
        · subst h; simpa using hc
        · have := ha pm h; simp only [decide_eq_true_eq]; omega
      rw [hcount] at hx
      simp at hx

lemma mem_drop_countBefore_ge {ts : Int} :
    ∀ {l : List PartialMatch}, SortedByFt l →
      ∀ x ∈ l.drop (countBefore l ts), ts ≤ x.firstTimestamp := by
  intro l
  induction l with
  | nil => intro _ x hx; simp at hx
  | cons a t ih =>
    intro hs x hx
    obtain ⟨ha, ht⟩ := sortedByFt_cons hs
    by_cases hc : a.firstTimestamp < ts
    · have hcount : countBefore (a :: t) ts = countBefore t ts + 1 := by
        simp [countBefore, List.countP_cons_of_pos, hc]
      rw [hcount] at hx
      simp only [List.drop] at hx
      exact ih ht x hx
    · have hcount : countBefore (a :: t) ts = 0 := by
        simp only [countBefore, List.countP_eq_zero]
        intro pm hpm
        rcases List.mem_cons.mp hpm with h | h
        · subst h; simpa using hc
        · have := ha pm h; simp only [decide_eq_true_eq]; omega
      rw [hcount] at hx
      simp only [List.drop] at hx
      rcases List.mem_cons.mp hx with h | h
      · subst h; omega
      · have := ha x h; omega

lemma countBefore_le_length (l : List PartialMatch) (ts : Int) :
    countBefore l ts ≤ l.length :=
  List.countP_le_length _

lemma find_eq_countBefore {pms : List PartialMatch} {ts : Int} (hs : SortedByFt pms) :
    findPartialMatchByTimestamp pms ts = .ok (countBefore pms ts) :=
  findPartialMatchByTimestamp_correct pms ts hs

lemma addPartialMatchList_eq {l : List PartialMatch} {pm : PartialMatch}
    (hs : SortedByFt l) :
    addPartialMatchList l pm =
      .ok (l.take (countBefore l pm.firstTimestamp) ++
        pm :: l.drop (countBefore l pm.firstTimestamp)) := by
  rw [addPartialMatchList, find_eq_countBefore hs]
  dsimp only
  rw [insertIdx_eq_take_cons_drop pm _ l (countBefore_le_length _ _)]

lemma addPartialMatchList_sorted {l : List PartialMatch} {pm : PartialMatch}
    {l' : List PartialMatch} (hs : SortedByFt l)
    (h : addPartialMatchList l pm = .ok l') : SortedByFt l' := by
  rw [addPartialMatchList_eq hs] at h
  cases h
  apply List.pairwise_append.mpr
  refine ⟨List.Pairwise.sublist (List.take_sublist _ _) hs, ?_, ?_⟩
  · apply List.pairwise_cons.mpr
    refine ⟨?_, List.Pairwise.sublist (List.drop_sublist _ _) hs⟩
    intro x hx
    exact mem_drop_countBefore_ge hs x hx
  · intro x hx y hy
    have hxlt := mem_take_countBefore_lt hs x hx
    rcases List.mem_cons.mp hy with h | h
    · subst h; omega
    · have := mem_drop_countBefore_ge hs y h
      omega

lemma cleanExpiredList_sorted {w : Option Int} {l : List PartialMatch} {ts : Int}
    {l' : List PartialMatch} (hs : SortedByFt l)
    (h : cleanExpiredList w l ts = .ok l') : SortedByFt l' := by
  cases w with
  | none => simp only [cleanExpiredList] at h; cases h; exact hs
  | some wv =>
    simp only [cleanExpiredList] at h
    cases hfind : findPartialMatchByTimestamp l (ts - wv) with
    | ok count =>
      rw [hfind] at h
      cases h
      exact List.Pairwise.sublist (List.drop_sublist _ _) hs
    | error e => rw [hfind] at h; cases h

lemma applyStoreOp_sorted {l l' : List PartialMatch} {op : StoreOp}
    (hs : SortedByFt l) (h : applyStoreOp l op = .ok l') : SortedByFt l' := by
  cases op with
  | add pm => exact addPartialMatchList_sorted hs h
  | clean w ts => exact cleanExpiredList_sorted hs h
  | consumeFirst =>
    rw [applyStoreOp] at h
    cases l with
    | nil => simp [consumeFirstList, Except.map] at h
    | cons a t =>
      simp only [consumeFirstList, Except.map] at h
      cases h
      exact (sortedByFt_cons hs).2
  | remove ms =>
    rw [applyStoreOp] at h
    cases h
    exact List.Pairwise.filter _ hs

lemma runStoreOpsFrom_sorted :
    ∀ (ops : List StoreOp) {l0 l : List PartialMatch}, SortedByFt l0 →
      runStoreOpsFrom l0 ops = .ok l → SortedByFt l := by
  intro ops
  induction ops with
  | nil =>
    intro l0 l hs h
    simp only [runStoreOpsFrom] at h
    cases h
    exact hs
  | cons op rest ih =>
    intro l0 l hs h
    simp only [runStoreOpsFrom] at h
    cases hstep : applyStoreOp l0 op with
    | ok l1 =>
      rw [hstep] at h
      exact ih (applyStoreOp_sorted hs hstep) h
    | error e =>
      rw [hstep] at h
      cases h

lemma foldl_max_ge_init (l : List Event) (init : Int) :
    init ≤ l.foldl (fun acc x => max acc x.timestamp) init := by
  induction l generalizing init with
  | nil => simp
  | cons e t ih => exact le_trans (le_max_left _ _) (ih (max init e.timestamp))

lemma foldl_max_ge_mem (l : List Event) (init : Int) :
    ∀ e ∈ l, e.timestamp ≤ l.foldl (fun acc x => max acc x.timestamp) init := by
  induction l generalizing init with
  | nil => intro e he; simp at he
  | cons a t ih =>
    intro e he
    rcases List.mem_cons.mp he with h | h
    · subst h
      exact le_trans (le_max_right _ _) (foldl_max_ge_init t _)
    · exact ih (max init a.timestamp) e h

lemma foldl_max_le (l : List Event) (init b : Int) (h0 : init ≤ b)
    (h : ∀ e ∈ l, e.timestamp ≤ b) :
    l.foldl (fun acc x => max acc x.timestamp) init ≤ b := by
  induction l generalizing init with
  | nil => simpa
  | cons a t ih =>
    exact ih (max init a.timestamp) (max_le h0 (h a (by simp)))
      (fun e he => h e (by simp [he]))

lemma le_maxTimestamp {l : List Event} : ∀ e ∈ l, e.timestamp ≤ maxTimestamp l := by
  intro e he
  cases l with
  | nil => simp at he
  | cons a t =>
    rw [maxTimestamp]
    rcases List.mem_cons.mp he with h | h
    · subst h; exact foldl_max_ge_init t _
    · exact foldl_max_ge_mem t _ e h

lemma maxTimestamp_le {l : List Event} (hne : l ≠ []) {b : Int}
    (h : ∀ e ∈ l, e.timestamp ≤ b) : maxTimestamp l ≤ b := by
  cases l with
  | nil => exact absurd rfl hne
  | cons a t =>
    rw [maxTimestamp]
    exact foldl_max_le t _ _ (h a (by simp)) (fun e he => h e (by simp [he]))

lemma foldl_min_le_init (l : List Event) (init : Int) :
    l.foldl (fun acc x => min acc x.timestamp) init ≤ init := by
  induction l generalizing init with
  | nil => simp
  | cons e t ih => exact le_trans (ih (min init e.timestamp)) (min_le_left _ _)

lemma foldl_min_le_mem (l : List Event) (init : Int) :
    ∀ e ∈ l, l.foldl (fun acc x => min acc x.timestamp) init ≤ e.timestamp := by
  induction l generalizing init with
  | nil => intro e he; simp at he
  | cons a t ih =>
    intro e he
    rcases List.mem_cons.mp he with h | h
    · subst h
      exact le_trans (foldl_min_le_init t _) (min_le_right _ _)
    · exact ih (min init a.timestamp) e h

lemma le_foldl_min (l : List Event) (init b : Int) (h0 : b ≤ init)
    (h : ∀ e ∈ l, b ≤ e.timestamp) :
    b ≤ l.foldl (fun acc x => min acc x.timestamp) init := by
  induction l generalizing init with
  | nil => simpa
  | cons a t ih =>
    exact ih (min init a.timestamp) (le_min h0 (h a (by simp)))
      (fun e he => h e (by simp [he]))

lemma minTimestamp_le {l : List Event} : ∀ e ∈ l, minTimestamp l ≤ e.timestamp := by
  intro e he
  cases l with
  | nil => simp at he
  | cons a t =>
    rw [minTimestamp]
    rcases List.mem_cons.mp he with h | h
    · subst h; exact foldl_min_le_init t _
    · exact foldl_min_le_mem t _ e h

lemma le_minTimestamp {l : List Event} (hne : l ≠ []) {b : Int}
    (h : ∀ e ∈ l, b ≤ e.timestamp) : b ≤ minTimestamp l := by
  cases l with
  | nil => exact absurd rfl hne
  | cons a t =>
    rw [minTimestamp]
    exact le_foldl_min t _ _ (h a (by simp)) (fun e he => h e (by simp [he]))

lemma foldl_max_init_comm (l : List Event) :
    ∀ (i j : Int), l.foldl (fun acc x => max acc x.timestamp) (max i j) =
      max i (l.foldl (fun acc x => max acc x.timestamp) j) := by
  induction l with
  | nil => intro i j; simp
  | cons e t ih =>
    intro i j
    simp only [List.foldl_cons]
    rw [max_assoc, ih]

lemma maxTimestamp_cons2 (a b : Event) (u : List Event) :
    maxTimestamp (a :: b :: u) = max a.timestamp (maxTimestamp (b :: u)) := by
  simp only [maxTimestamp, List.foldl_cons]
  exact foldl_max_init_comm u a.timestamp b.timestamp

lemma maxTimestamp_mem {l : List Event} (hne : l ≠ []) :
    ∃ e ∈ l, maxTimestamp l = e.timestamp := by
  induction l with
  | nil => exact absurd rfl hne
  | cons a t ih =>
    cases t with
    | nil =>
      refine ⟨a, by simp, ?_⟩
      rw [maxTimestamp]
      simp
    | cons b u =>
      obtain ⟨e, he, hmax⟩ := ih (by simp)
      rw [maxTimestamp_cons2]
      rcases max_choice a.timestamp (maxTimestamp (b :: u)) with h | h
      · exact ⟨a, by simp, h⟩
      · exact ⟨e, by simp [List.mem_cons.mp he], by rw [h, hmax]⟩

lemma foldl_min_init_comm (l : List Event) :
    ∀ (i j : Int), l.foldl (fun acc x => min acc x.timestamp) (min i j) =
      min i (l.foldl (fun acc x => min acc x.timestamp) j) := by
  induction l with
  | nil => intro i j; simp
  | cons e t ih =>
    intro i j
    simp only [List.foldl_cons]
    rw [min_assoc, ih]

lemma minTimestamp_cons2 (a b : Event) (u : List Event) :
    minTimestamp (a :: b :: u) = min a.timestamp (minTimestamp (b :: u)) := by
  simp only [minTimestamp, List.foldl_cons]
  exact foldl_min_init_comm u a.timestamp b.timestamp

lemma minTimestamp_mem {l : List Event} (hne : l ≠ []) :
    ∃ e ∈ l, minTimestamp l = e.timestamp := by
  induction l with
  | nil => exact absurd rfl hne
  | cons a t ih =>
    cases t with
    | nil =>
      refine ⟨a, by simp, ?_⟩
      rw [minTimestamp]
      simp
    | cons b u =>
      obtain ⟨e, he, hmin⟩ := ih (by simp)
      rw [minTimestamp_cons2]
      rcases min_choice a.timestamp (minTimestamp (b :: u)) with h | h
      · exact ⟨a, by simp, h⟩
      · exact ⟨e, by simp [List.mem_cons.mp he], by rw [h, hmin]⟩

lemma maxTimestamp_perm {l1 l2 : List Event} (hp : l1.Perm l2) (hne : l1 ≠ []) :
    maxTimestamp l1 = maxTimestamp l2 := by
  have hne2 : l2 ≠ [] := by
    intro hc
    subst hc
    exact hne (List.Perm.eq_nil hp)
  obtain ⟨e1, he1, h1⟩ := maxTimestamp_mem hne
  obtain ⟨e2, he2, h2⟩ := maxTimestamp_mem hne2
  have ha : maxTimestamp l1 ≤ maxTimestamp l2 := by
    rw [h1]
    exact le_maxTimestamp e1 (hp.mem_iff.mp he1)
  have hb : maxTimestamp l2 ≤ maxTimestamp l1 := by
    rw [h2]
    exact le_maxTimestamp e2 (hp.mem_iff.mpr he2)
  omega

lemma minTimestamp_perm {l1 l2 : List Event} (hp : l1.Perm l2) (hne : l1 ≠ []) :
    minTimestamp l1 = minTimestamp l2 := by
  have hne2 : l2 ≠ [] := by
    intro hc
    subst hc
    exact hne (List.Perm.eq_nil hp)
  obtain ⟨e1, he1, h1⟩ := minTimestamp_mem hne
  obtain ⟨e2, he2, h2⟩ := minTimestamp_mem hne2
  have ha : minTimestamp l2 ≤ minTimestamp l1 := by
    rw [h1]
    exact minTimestamp_le e1 (hp.mem_iff.mp he1)
  have hb : minTimestamp l1 ≤ minTimestamp l2 := by
    rw [h2]
    exact minTimestamp_le e2 (hp.mem_iff.mpr he2)
  omega

lemma maxTimestamp_append {l1 l2 : List Event} (h1 : l1 ≠ []) (h2 : l2 ≠ []) :
    maxTimestamp (l1 ++ l2) = max (maxTimestamp l1) (maxTimestamp l2) := by
  have hne : l1 ++ l2 ≠ [] := by simp [h1]
  apply le_antisymm
  · apply maxTimestamp_le hne
    intro e he
    rcases List.mem_append.mp he with h | h
    · exact le_trans (le_maxTimestamp e h) (le_max_left _ _)
    · exact le_trans (le_maxTimestamp e h) (le_max_right _ _)
  · apply max_le
    · obtain ⟨e, he, hx⟩ := maxTimestamp_mem h1
      rw [hx]
      exact le_maxTimestamp e (List.mem_append.mpr (Or.inl he))
    · obtain ⟨e, he, hx⟩ := maxTimestamp_mem h2
      rw [hx]
      exact le_maxTimestamp e (List.mem_append.mpr (Or.inr he))

lemma minTimestamp_append {l1 l2 : List Event} (h1 : l1 ≠ []) (h2 : l2 ≠ []) :
    minTimestamp (l1 ++ l2) = min (minTimestamp l1) (minTimestamp l2) := by
  have hne : l1 ++ l2 ≠ [] := by simp [h1]
  apply le_antisymm
  · apply le_min
    · obtain ⟨e, he, hx⟩ := minTimestamp_mem h1
      rw [hx]
      exact minTimestamp_le e (List.mem_append.mpr (Or.inl he))
    · obtain ⟨e, he, hx⟩ := minTimestamp_mem h2
      rw [hx]
      exact minTimestamp_le e (List.mem_append.mpr (Or.inr he))
  · apply le_minTimestamp hne
    intro e he
    rcases List.mem_append.mp he with h | h
    · exact le_trans (min_le_left _ _) (minTimestamp_le e h)
    · exact le_trans (min_le_right _ _) (minTimestamp_le e h)

lemma mergeAccordingTo_ok {α γ β : Type} [LinearOrder β] (key : γ → β)
    {l1 l2 : List γ} {act1 act2 : List α}
    (h1 : l1.length = act1.length) (h2 : l2.length = act2.length) :
    mergeAccordingTo key l1 l2 act1 act2 =
      .ok ((merge (fun p => key p.1) (l1.zip act1) (l2.zip act2)).map Prod.snd) := by
  rw [mergeAccordingTo, if_neg (by omega)]
  rw [mergeAccordingToAux_eq_zip key l1 l2 act1 act2 h1 h2]

lemma mergeEventsForNewMatch_perm {n : JoinNode} {fd sd : List EventDef}
    {fe se evs : List Event}
    (h : mergeEventsForNewMatch n fd sd fe se = .ok evs) : evs.Perm (fe ++ se) := by
  rw [mergeEventsForNewMatch] at h
  by_cases hseq : n.isSeq
  · rw [if_pos hseq, mergeAccordingTo] at h
    by_cases hlen : fd.length ≠ fe.length ∨ sd.length ≠ se.length
    · rw [if_pos hlen] at h; cases h
    · rw [if_neg hlen] at h
      push_neg at hlen
      cases h
      rw [mergeAccordingToAux_eq_zip _ fd sd fe se hlen.1 hlen.2]
      have hp : (merge (fun p : EventDef × Event => p.1.1) (fd.zip fe) (sd.zip se)).Perm
          (fd.zip fe ++ sd.zip se) := merge_perm _ _ _
      have := hp.map Prod.snd
      rw [List.map_append] at this
      rw [List.map_snd_zip fd fe (by omega), List.map_snd_zip sd se (by omega)] at this
      exact this
  · rw [if_neg hseq] at h
    cases hd : n.eventDefs.head? with
    | none => rw [hd] at h; cases h
    | some d =>
      cases hfd : fd.head? with
      | none => rw [hd, hfd] at h; cases h
      | some f0 =>
        cases hsd : sd.head? with
        | none => rw [hd, hfd, hsd] at h; cases h
        | some s0 =>
          rw [hd, hfd, hsd] at h
          dsimp only at h
          by_cases h1 : d.1 = f0.1
          · rw [if_pos h1] at h; cases h; exact List.Perm.refl _
          · rw [if_neg h1] at h
            by_cases h2 : d.1 = s0.1
            · rw [if_pos h2] at h; cases h; exact List.perm_append_comm
            · rw [if_neg h2] at h; cases h

lemma tryCreateNewMatch_some_inv {n : JoinNode} {f s : PartialMatch}
    {fd sd : List EventDef} {evs : List Event}
    (h : tryCreateNewMatch n f s fd sd = .ok (some evs)) :
    windowExceeded n.window f s = false ∧
      mergeEventsForNewMatch n fd sd f.events s.events = .ok evs ∧
      validateNewMatch n evs = .ok true ∧
      (n.threshold = 0 ∨ n.threshold ≤ f.lastTimestamp) := by
  rw [tryCreateNewMatch] at h
  by_cases hw : windowExceeded n.window f s
  · rw [if_pos hw] at h; simp at h
  · rw [if_neg hw] at h
    cases hm : mergeEventsForNewMatch n fd sd f.events s.events with
    | error e => rw [hm] at h; cases h
    | ok evs' =>
      rw [hm] at h
      dsimp only at h
      cases hv : validateNewMatch n evs' with
      | error e => rw [hv] at h; cases h
      | ok valid =>
        rw [hv] at h
        dsimp only at h
        cases valid with
        | false => simp at h
        | true =>
          rw [if_neg (by simp)] at h
          by_cases ht : n.threshold ≠ 0 ∧ f.lastTimestamp < n.threshold
          · rw [if_pos ht] at h; simp at h
          · rw [if_neg ht] at h
            have hevs : evs' = evs := by
              cases h
              rfl
            subst hevs
            refine ⟨by simpa using hw, rfl, hv, ?_⟩
            push_neg at ht
            by_cases h0 : n.threshold = 0
            · exact Or.inl h0
            · exact Or.inr (ht h0)

lemma windowExceeded_false_abs {w : Int} {f s : PartialMatch}
    (h : windowExceeded (some w) f s = false) :
    |f.lastTimestamp - s.firstTimestamp| ≤ w := by
  simp only [windowExceeded, decide_eq_false_iff_not, not_lt] at h
  exact h

lemma maxTimestamp_evs_ge_first {n : JoinNode} {fd sd : List EventDef}
    {fe se evs : List Event}
    (h : mergeEventsForNewMatch n fd sd fe se = .ok evs)
    (hfne : fe ≠ []) (hsne : se ≠ []) :
    maxTimestamp fe ≤ maxTimestamp evs := by
  have hperm := mergeEventsForNewMatch_perm h
  have hevsne : evs ≠ [] := by
    intro hc
    subst hc
    have := List.Perm.eq_nil hperm.symm
    simp [hfne] at this
  rw [maxTimestamp_perm hperm hevsne, maxTimestamp_append hfne hsne]
  exact le_max_left _ _

/-- C2 (amended): whenever the incoming (first) partial match carries the
latest timestamp of the pair — as it does on timestamp-ordered input, where
the incoming match contains the newest event — the single window test of
`_try_create_new_match` does bound the merged spread by the window. -/
theorem C2_window_spread_amended (n : JoinNode) (f s : PartialMatch)
    (fd sd : List EventDef) (evs : List Event) (w : Int)
    (hw : n.window = some w)
    (hff : f.firstTimestamp = minTimestamp f.events)
    (hfl : f.lastTimestamp = maxTimestamp f.events)
    (hsf : s.firstTimestamp = minTimestamp s.events)
    (hsl : s.lastTimestamp = maxTimestamp s.events)
    (hfne : f.events ≠ []) (hsne : s.events ≠ [])
    (hfspread : f.lastTimestamp - f.firstTimestamp ≤ w)
    (horder : s.lastTimestamp ≤ f.lastTimestamp)
    (hok : tryCreateNewMatch n f s fd sd = .ok (some evs)) :
    maxTimestamp evs - minTimestamp evs ≤ w := by
  obtain ⟨hwin, hmerge, _, _⟩ := tryCreateNewMatch_some_inv hok
  have hperm := mergeEventsForNewMatch_perm hmerge
  have hevsne : evs ≠ [] := by
    intro hc
    subst hc
    have := List.Perm.eq_nil hperm.symm
    simp [hfne] at this
  have hmax : maxTimestamp evs = max f.lastTimestamp s.lastTimestamp := by
    rw [maxTimestamp_perm hperm hevsne, maxTimestamp_append hfne hsne, hfl, hsl]
  have hmin : minTimestamp evs = min f.firstTimestamp s.firstTimestamp := by
    rw [minTimestamp_perm hperm hevsne, minTimestamp_append hfne hsne, hff, hsf]
  rw [hw] at hwin
  have habs := abs_le.mp (windowExceeded_false_abs hwin)
  rw [hmax, hmin, max_eq_left horder]
  rcases le_total f.firstTimestamp s.firstTimestamp with hmf | hmf
  · rw [min_eq_left hmf]
    omega
  · rw [min_eq_right hmf]
    omega

/-- C3 (amended): the threshold guard of `_try_create_new_match` tests the
*first* (incoming) partial match's `last_timestamp`, not the merged one: with
the window, merge and validation guards passing, the pair is rejected iff
`threshold ≠ 0` and `first.last_timestamp < threshold`; consequently a
candidate whose merged last timestamp is below a non-zero threshold is
always rejected, but one whose merged last timestamp reaches the threshold
may still be rejected (exactly when the first match's own last timestamp
falls short). -/
theorem C3_threshold_guard_amended (n : JoinNode) (f s : PartialMatch)
    (fd sd : List EventDef) (evs : List Event)
    (hwin : windowExceeded n.window f s = false)
    (hm : mergeEventsForNewMatch n fd sd f.events s.events = .ok evs)
    (hv : validateNewMatch n evs = .ok true)
    (hfl : f.lastTimestamp = maxTimestamp f.events)
    (hfne : f.events ≠ []) (hsne : s.events ≠ []) :
    (tryCreateNewMatch n f s fd sd =
      if n.threshold ≠ 0 ∧ f.lastTimestamp < n.threshold then .ok none
      else .ok (some evs)) ∧
    (n.threshold ≠ 0 → maxTimestamp evs < n.threshold →
      tryCreateNewMatch n f s fd sd = .ok none) := by
  have hbase : tryCreateNewMatch n f s fd sd =
      if n.threshold ≠ 0 ∧ f.lastTimestamp < n.threshold then .ok none
      else .ok (some evs) := by
    rw [tryCreateNewMatch, if_neg (by simp [hwin]), hm]
    dsimp only
    rw [hv]
    dsimp only
    rw [if_neg (by simp)]
  refine ⟨hbase, ?_⟩
  intro ht0 hlt
  have hle : f.lastTimestamp ≤ maxTimestamp evs := by
    rw [hfl]
    exact maxTimestamp_evs_ge_first hm hfne hsne
  rw [hbase, if_pos ⟨ht0, by omega⟩]

/-- C2 is refuted at this input: both partial matches individually fit the
window 5 and the pair passes every guard of `_try_create_new_match`
(|first.last − second.first| = 5 ≤ 5), yet the accepted merged match spans
11 − 1 = 10 > 5. -/
theorem C2_counterexample :
    tryCreateNewMatch c2Node c2First c2Second
        [(0, ⟨"B", "b", 0⟩)] [(1, ⟨"C", "c", 1⟩), (2, ⟨"D", "d", 2⟩)] =
      .ok (some [evAt "B" 1 0, evAt "C" 6 0, evAt "D" 11 0]) ∧
    c2First.lastTimestamp - c2First.firstTimestamp ≤ 5 ∧
    c2Second.lastTimestamp - c2Second.firstTimestamp ≤ 5 ∧
    maxTimestamp [evAt "B" 1 0, evAt "C" 6 0, evAt "D" 11 0] -
      minTimestamp [evAt "B" 1 0, evAt "C" 6 0, evAt "D" 11 0] > 5 := by
  decide

theorem C2_witness :
    maxTimestamp [evAt "B" 7 0, evAt "C" 6 0] -
      minTimestamp [evAt "B" 7 0, evAt "C" 6 0] ≤ 5 := by
  have h := C2_window_spread_amended c2WitnessNode (mkPartialMatch [evAt "B" 7 0])
    (mkPartialMatch [evAt "C" 6 0]) [(0, ⟨"B", "b", 0⟩)] [(1, ⟨"C", "c", 1⟩)]
    [evAt "B" 7 0, evAt "C" 6 0] 5 (by decide) (by decide) (by decide) (by decide)
    (by decide) (by decide) (by decide) (by decide) (by decide) (by decide)
  exact h

/-- C3 is refuted at this input: the window test passes, the merged events
validate, the merged last timestamp (6) reaches the non-zero threshold (6),
yet the guard rejects the candidate because it compares the *first* partial
match's last timestamp (2) with the threshold. -/
theorem C3_counterexample :
    tryCreateNewMatch c3Node c3First c3Second
        [(0, ⟨"B", "b", 0⟩)] [(1, ⟨"C", "c", 1⟩)] = .ok none ∧
    c3Node.threshold ≠ 0 ∧
    windowExceeded c3Node.window c3First c3Second = false ∧
    mergeEventsForNewMatch c3Node [(0, ⟨"B", "b", 0⟩)] [(1, ⟨"C", "c", 1⟩)]
      c3First.events c3Second.events = .ok [evAt "B" 2 0, evAt "C" 6 0] ∧
    validateNewMatch c3Node [evAt "B" 2 0, evAt "C" 6 0] = .ok true ∧
    maxTimestamp [evAt "B" 2 0, evAt "C" 6 0] ≥ c3Node.threshold := by
  decide

theorem C3_witness :
    tryCreateNewMatch c3Node (mkPartialMatch [evAt "B" 7 0]) c3Second
        [(0, ⟨"B", "b", 0⟩)] [(1, ⟨"C", "c", 1⟩)] =
      .ok (some [evAt "B" 7 0, evAt "C" 6 0]) := by
  have h := C3_threshold_guard_amended c3Node (mkPartialMatch [evAt "B" 7 0]) c3Second
    [(0, ⟨"B", "b", 0⟩)] [(1, ⟨"C", "c", 1⟩)] [evAt "B" 7 0, evAt "C" 6 0]
    (by decide) (by decide) (by decide) (by decide) (by decide) (by decide)
  rw [h.1, if_neg (by decide)]

/-- C9: for every list of partial matches sorted by `first_timestamp`
ascending and every timestamp, `find_partial_match_by_timestamp` terminates,
never reaches its final `raise`, and returns exactly the number of list
elements whose `first_timestamp` is strictly less than the given timestamp
(the first index whose `first_timestamp` is `≥` that timestamp). -/
theorem C9_find_returns_count (pms : List PartialMatch) (ts : Int)
    (hs : SortedByFt pms) :
    findPartialMatchByTimestamp pms ts = .ok (countBefore pms ts) :=
  findPartialMatchByTimestamp_correct pms ts hs

theorem C9_witness :
    SortedByFt [pmAt 1 0, pmAt 5 0, pmAt 5 1, pmAt 9 0] ∧
      findPartialMatchByTimestamp [pmAt 1 0, pmAt 5 0, pmAt 5 1, pmAt 9 0] 5 = .ok 1 :=
  ⟨by decide,
    (C9_find_returns_count [pmAt 1 0, pmAt 5 0, pmAt 5 1, pmAt 9 0] 5 (by decide)).trans
      (congrArg Except.ok (by decide))⟩

/-- C10: for inputs each sorted non-decreasingly under the key, `merge`
returns a sorted permutation of the concatenation whose length is the sum of
the input lengths, and on equal keys the element of the second list is
placed before the element of the first (the equal-key block of the output is
the second list's block followed by the first's); `merge_according_to`
interleaves the two `actual` lists in the same order and raises exactly when
a `defs` list and its `actual` list differ in length. -/
theorem C10_merge_properties {α β γ : Type} [LinearOrder β] (key : α → β)
    (l1 l2 : List α)
    (h1 : l1.Pairwise (fun x y => key x ≤ key y))
    (h2 : l2.Pairwise (fun x y => key x ≤ key y)) :
    (merge key l1 l2).length = l1.length + l2.length ∧
      (merge key l1 l2).Perm (l1 ++ l2) ∧
      (merge key l1 l2).Pairwise (fun x y => key x ≤ key y) ∧
      (∀ v : β, (merge key l1 l2).filter (fun x => decide (key x = v)) =
        l2.filter (fun x => decide (key x = v)) ++
          l1.filter (fun x => decide (key x = v))) ∧
      (∀ act1 act2 : List γ,
        (mergeAccordingTo key l1 l2 act1 act2 = .error () ↔
          (l1.length ≠ act1.length ∨ l2.length ≠ act2.length)) ∧
        (l1.length = act1.length → l2.length = act2.length →
          mergeAccordingTo key l1 l2 act1 act2 =
            .ok ((merge (fun p => key p.1) (l1.zip act1) (l2.zip act2)).map
              Prod.snd))) :=
  ⟨merge_length key l1 l2, merge_perm key l1 l2, merge_sorted key l1 l2 h1 h2,
    merge_filter_eq_key key l1 l2 h1 h2,
    fun act1 act2 =>
      ⟨mergeAccordingTo_error_iff key l1 l2 act1 act2,
        fun ha hb => mergeAccordingTo_ok key ha hb⟩⟩

theorem C10_witness :
    (merge (fun x : Int => x) [1, 3] [2, 3]).length =
      ([1, 3] : List Int).length + ([2, 3] : List Int).length ∧
      (merge (fun x : Int => x) [1, 3] [2, 3]).Perm ([1, 3] ++ [2, 3]) :=
  ⟨(C10_merge_properties (γ := Unit) (fun x : Int => x) [1, 3] [2, 3]
      (by decide) (by decide)).1,
    (C10_merge_properties (γ := Unit) (fun x : Int => x) [1, 3] [2, 3]
      (by decide) (by decide)).2.1⟩

/-- C4 is refuted at this input: the store holds one match with
`first_timestamp` 5 and a distinct new match with the same `first_timestamp`
is inserted at index 0, i.e. *before* the existing equal-key entry, not
after it. -/
theorem C4_counterexample :
    addPartialMatchList [pmAt 5 1] (pmAt 5 2) = .ok [pmAt 5 2, pmAt 5 1] ∧
      (pmAt 5 2).firstTimestamp = (pmAt 5 1).firstTimestamp ∧
      pmAt 5 2 ≠ pmAt 5 1 := by
  decide

/-- C4 (amended): on a sorted store, `add_partial_match` inserts the new
match at the index returned by the binary search — the number of stored
entries with a strictly smaller `first_timestamp` — which places it
*before* every existing entry whose `first_timestamp` is equal to (or
greater than) the new match's. -/
theorem C4_insert_before_equal (l : List PartialMatch) (pm : PartialMatch)
    (hs : SortedByFt l) :
    addPartialMatchList l pm =
      .ok (l.take (countBefore l pm.firstTimestamp) ++
        pm :: l.drop (countBefore l pm.firstTimestamp)) ∧
      (∀ x ∈ l.take (countBefore l pm.firstTimestamp),
        x.firstTimestamp < pm.firstTimestamp) ∧
      (∀ x ∈ l.drop (countBefore l pm.firstTimestamp),
        pm.firstTimestamp ≤ x.firstTimestamp) :=
  ⟨addPartialMatchList_eq hs, fun x hx => mem_take_countBefore_lt hs x hx,
    fun x hx => mem_drop_countBefore_ge hs x hx⟩

theorem C4_witness :
    addPartialMatchList [pmAt 3 0, pmAt 5 0] (pmAt 5 9) =
      .ok ([pmAt 3 0, pmAt 5 0].take
          (countBefore [pmAt 3 0, pmAt 5 0] (pmAt 5 9).firstTimestamp) ++
        pmAt 5 9 :: [pmAt 3 0, pmAt 5 0].drop
          (countBefore [pmAt 3 0, pmAt 5 0] (pmAt 5 9).firstTimestamp)) ∧
      (∀ x ∈ [pmAt 3 0, pmAt 5 0].take
          (countBefore [pmAt 3 0, pmAt 5 0] (pmAt 5 9).firstTimestamp),
        x.firstTimestamp < (pmAt 5 9).firstTimestamp) ∧
      (∀ x ∈ [pmAt 3 0, pmAt 5 0].drop
          (countBefore [pmAt 3 0, pmAt 5 0] (pmAt 5 9).firstTimestamp),
        (pmAt 5 9).firstTimestamp ≤ x.firstTimestamp) :=
  C4_insert_before_equal [pmAt 3 0, pmAt 5 0] (pmAt 5 9) (by decide)

/-- C5: starting from the empty store, any sequence of
`add_partial_match`, `clean_expired_partial_matches`,
`consume_first_partial_match` and `_remove_partial_matches` operations that
completes without an exception leaves the `partial_matches` list sorted by
`first_timestamp` ascending. -/
theorem C5_sorted_invariant (ops : List StoreOp) (l : List PartialMatch)
    (h : runStoreOps ops = .ok l) : SortedByFt l :=
  runStoreOpsFrom_sorted ops List.Pairwise.nil h

theorem C5_witness : SortedByFt [pmAt 5 0] :=
  C5_sorted_invariant
    [.add (pmAt 3 0), .add (pmAt 5 0), .clean (some 10) 4, .consumeFirst]
    [pmAt 5 0] (by decide)

/-- C7: `LeafNode.handle_event` (lines 236–250) first expires the store
with the event's timestamp; if the condition then evaluates to `False` on
the singleton binding the event is dropped without an error — the state is
exactly the expired one, no match added, no parent notified; if it
evaluates to `True` the singleton `PartialMatch` is added and the parent
(when one exists) is notified; an unbound name raises (`NameError`). -/
theorem C7_leaf_handle_event (fuel : Nat) (s : EvalState) (leafId : Nat) (e : Event)
    (hns : s.stuck = false)
    (hclean : (cleanExpired fuel s leafId e.timestamp).stuck = false) :
    ((getNode (cleanExpired fuel s leafId e.timestamp) leafId).condition.eval
        [((getNode (cleanExpired fuel s leafId e.timestamp) leafId).eventName, e.payload)] =
          some false →
      leafHandleEvent (fuel + 1) s leafId e = cleanExpired fuel s leafId e.timestamp) ∧
    ((getNode (cleanExpired fuel s leafId e.timestamp) leafId).condition.eval
        [((getNode (cleanExpired fuel s leafId e.timestamp) leafId).eventName, e.payload)] =
          some true →
      leafHandleEvent (fuel + 1) s leafId e =
        match (getNode (addPartialMatchNode (cleanExpired fuel s leafId e.timestamp) leafId
            (mkPartialMatch [e])) leafId).parent with
        | some p => handleNewPartialMatch fuel
            (addPartialMatchNode (cleanExpired fuel s leafId e.timestamp) leafId
              (mkPartialMatch [e])) p leafId
        | none => addPartialMatchNode (cleanExpired fuel s leafId e.timestamp) leafId
            (mkPartialMatch [e])) ∧
    ((getNode (cleanExpired fuel s leafId e.timestamp) leafId).condition.eval
        [((getNode (cleanExpired fuel s leafId e.timestamp) leafId).eventName, e.payload)] =
          none →
      leafHandleEvent (fuel + 1) s leafId e = setStuck (cleanExpired fuel s leafId e.timestamp)) := by
  refine ⟨fun hcond => ?_, fun hcond => ?_, fun hcond => ?_⟩ <;>
    simp only [leafHandleEvent, hns, Bool.false_eq_true, if_false, hclean, hcond]

/-- Witness for C7: a leaf with condition `b > 0` receives a `B` event
with payload `-1`; the event is dropped and the final state is exactly the
expired one. -/
theorem C7_witness :
    leafHandleEvent (5 + 1) c7State 0 (evAt "B" 3 (-1)) =
      cleanExpired 5 c7State 0 (evAt "B" 3 (-1)).timestamp :=
  (C7_leaf_handle_event 5 c7State 0 (evAt "B" 3 (-1)) rfl (by decide)).1 (by decide)

lemma drainMatches_closeCount (s : EvalState) (rootId : Nat) (out : OutStream) :
    (drainMatches s rootId out).2.closeCount = out.closeCount := rfl

lemma processEventLeaves_closeCount (fuel : Nat) (rootId : Nat) (e : Event) :
    ∀ (ls : List Nat) (s : EvalState) (out : OutStream),
      (processEventLeaves fuel s rootId out e ls).2.closeCount = out.closeCount := by
  intro ls
  induction ls with
  | nil => intro s out; rfl
  | cons l rest ih =>
    intro s out
    simp only [processEventLeaves]
    split
    · rfl
    · rw [ih, drainMatches_closeCount]

lemma processEvents_closeCount (fuel : Nat) (rootId : Nat) (listeners : List (Nat × String)) :
    ∀ (evs : List Event) (s : EvalState) (out : OutStream),
      (processEvents fuel s rootId listeners out evs).2.closeCount = out.closeCount := by
  intro evs
  induction evs with
  | nil => intro s out; rfl
  | cons e rest ih =>
    intro s out
    simp only [processEvents]
    split
    · rw [processEventLeaves_closeCount]
    · rw [ih, processEventLeaves_closeCount]

lemma handleEOF_closeCount (s : EvalState) (rootId : Nat) (out : OutStream) :
    (handleEOF s rootId out).closeCount = out.closeCount := rfl

/-- Counterexample to C6 as stated: `matches.close()` is the last
statement of `eval` with no exception handler, so a run that raises never
closes the stream — here `AND(A, NOT B)` over `A@0, B@1` hits the
`NotImplementedError` of the `AndOperator` negation branch and the close
count stays 0.  "Closed exactly once in every run" is therefore false. -/
theorem C6_counterexample :
    (runCEP 40 .postProcessing c6CounterPattern (.leaf 0)
        [evAt "A" 0 0, evAt "B" 1 0]).1.stuck = true ∧
    (runCEP 40 .postProcessing c6CounterPattern (.leaf 0)
        [evAt "A" 0 0, evAt "B" 1 0]).2.closeCount = 0 := by
  decide

/-- C6 (amended): `TreeBasedEvaluationMechanism.eval` (lines 854–878)
closes the output stream exactly once — final close-count is the initial
one plus one — in every run whose event loop completes without a
propagating exception, and never closes it when an exception propagates
(the close count is unchanged); and in a completed run whose root is a
negation node flagged `is_last`, the emitted items are exactly the
processed-stream items followed by one `PatternMatch` per entry of the
root's `matches_to_handle_at_EOF` and one per entry of the first-last
negative node's `waiting_for_timeout` (`Tree.handle_EOF`, lines 815–824). -/
theorem C6_eof_close_amended (fuel : Nat) (s : EvalState) (rootId : Nat)
    (events : List Event) (out : OutStream) :
    ∀ (s1 : EvalState) (out1 : OutStream),
      processEvents fuel s rootId
          ((getLeaves (s.count + 1) s rootId).map (fun l => (l, (getNode s l).eventType)))
          out events = (s1, out1) →
      (s1.stuck = true →
        (evalMechanism fuel s rootId events out).2.closeCount = out.closeCount) ∧
      (s1.stuck = false →
        (evalMechanism fuel s rootId events out).2.closeCount = out.closeCount + 1) ∧
      (s1.stuck = false → isRootNegationLast s1 rootId = true →
        (evalMechanism fuel s rootId events out).2.items =
          out1.items ++
            (getNode s1 rootId).matchesToHandleAtEOF.map
              (fun pm : PartialMatch => PatternMatch.mk pm.events) ++
            (getNode s1 (getFirstLastNegativeNode (s1.count + 1) s1 rootId)).waitingForTimeOut.map
              (fun pm : PartialMatch => PatternMatch.mk pm.events)) := by
  intro s1 out1 hp
  have hclose : out1.closeCount = out.closeCount := by
    have h2 := processEvents_closeCount fuel rootId
      ((getLeaves (s.count + 1) s rootId).map (fun l => (l, (getNode s l).eventType)))
      events s out
    rw [hp] at h2
    exact h2
  refine ⟨?_, ?_, ?_⟩
  · intro hstuck
    simp only [evalMechanism, hp, hstuck, if_true]
    exact hclose
  · intro hns
    simp only [evalMechanism, hp, hns, Bool.false_eq_true, if_false]
    split
    · rw [handleEOF_closeCount, hclose]
    · rw [hclose]
  · intro hns hr
    simp only [evalMechanism, hp, hns, Bool.false_eq_true, if_false, hr, if_true]
    rfl

/-- Witness for C6 (amended): running `SEQ(B, NOT A)` in post-processing
mode over the single event `B@0` completes without an exception, closes
the stream once and emits the end-of-stream drain. -/
theorem C6_witness :
    (evalMechanism 10 c6S c6Root [evAt "B" 0 0] {}).2.closeCount =
        ({} : OutStream).closeCount + 1 ∧
    (evalMechanism 10 c6S c6Root [evAt "B" 0 0] {}).2.items =
      c6Run.2.items ++
        (getNode c6Run.1 c6Root).matchesToHandleAtEOF.map
          (fun pm : PartialMatch => PatternMatch.mk pm.events) ++
        (getNode c6Run.1 (getFirstLastNegativeNode (c6Run.1.count + 1) c6Run.1 c6Root)).waitingForTimeOut.map
          (fun pm : PartialMatch => PatternMatch.mk pm.events) :=
  ⟨(C6_eof_close_amended 10 c6S c6Root [evAt "B" 0 0] {} c6Run.1 c6Run.2 rfl).2.1
      (by decide),
   (C6_eof_close_amended 10 c6S c6Root [evAt "B" 0 0] {} c6Run.1 c6Run.2 rfl).2.2
      (by decide) (by decide)⟩

lemma newNode_snd (s : EvalState) (n : NodeData) : (newNode s n).2 = s.count := rfl

lemma newNode_count (s : EvalState) (n : NodeData) : (newNode s n).1.count = s.count + 1 := rfl

lemma newNode_nodeMap_ne (s : EvalState) (n : NodeData) (j : Nat) (h : j ≠ s.count) :
    (newNode s n).1.nodeMap j = s.nodeMap j := by
  simp only [newNode]
  rw [if_neg h]

lemma setSubtrees_count (s : EvalState) (cur l r : Nat) :
    (setSubtrees s cur l r).count = s.count := rfl

lemma setSubtrees_nodeMap_ne (s : EvalState) (cur l r j : Nat) (h : j ≠ cur) :
    (setSubtrees s cur l r).nodeMap j = s.nodeMap j := by
  simp only [setSubtrees, modifyNode]
  rw [if_neg h]

lemma setSubtrees_parent (s : EvalState) (cur l r j : Nat) :
    ((setSubtrees s cur l r).nodeMap j).parent = (s.nodeMap j).parent := by
  by_cases h : j = cur
  · subst h
    simp [setSubtrees, modifyNode]
  · rw [setSubtrees_nodeMap_ne s cur l r j h]

lemma constructTree_count (isSeq : Bool) (args : List QItem) (w : Option Int) :
    ∀ (t : TreeStruct) (par : Option Nat) (s : EvalState),
      s.count < (constructTree isSeq args w t par s).1.count := by
  intro t
  induction t with
  | leaf i =>
    intro par s
    simp [constructTree, newNode]
  | node lst rst ihl ihr =>
    intro par s
    simp only [constructTree, setSubtrees_count, newNode_snd]
    refine Nat.lt_trans ?_ (ihr _ _)
    refine Nat.lt_trans ?_ (ihl _ _)
    exact Nat.lt_succ_self s.count

lemma constructTree_frame (isSeq : Bool) (args : List QItem) (w : Option Int) :
    ∀ (t : TreeStruct) (par : Option Nat) (s : EvalState) (j : Nat), j < s.count →
      (constructTree isSeq args w t par s).1.nodeMap j = s.nodeMap j := by
  intro t
  induction t with
  | leaf i =>
    intro par s j hj
    simp only [constructTree]
    exact newNode_nodeMap_ne s _ j (Nat.ne_of_lt hj)
  | node lst rst ihl ihr =>
    intro par s j hj
    simp only [constructTree, newNode_snd]
    rw [setSubtrees_nodeMap_ne _ _ _ _ _ (Nat.ne_of_lt hj), ihr, ihl, newNode_nodeMap_ne]
    · exact Nat.ne_of_lt hj
    · exact Nat.lt_trans hj (Nat.lt_succ_self _)
    · refine Nat.lt_trans ?_ (constructTree_count isSeq args w lst _ _)
      exact Nat.lt_trans hj (Nat.lt_succ_self _)

lemma constructTree_parent (isSeq : Bool) (args : List QItem) (w : Option Int)
    (t : TreeStruct) (par : Option Nat) (s : EvalState) :
    ((constructTree isSeq args w t par s).1.nodeMap
      (constructTree isSeq args w t par s).2).parent = par := by
  cases t with
  | leaf i =>
    simp [constructTree, newNode]
  | node lst rst =>
    simp only [constructTree, newNode_snd]
    rw [setSubtrees_parent, constructTree_frame isSeq args w rst,
      constructTree_frame isSeq args w lst]
    · simp [newNode]
    · exact Nat.lt_succ_self _
    · refine Nat.lt_trans ?_ (constructTree_count isSeq args w lst _ _)
      exact Nat.lt_succ_self _

lemma modifyNode_condition_parent (s : EvalState) (i : Nat) (c : Formula) (j : Nat) :
    ((modifyNode s i (fun nd => { nd with condition := c })).nodeMap j).parent =
      (s.nodeMap j).parent := by
  simp only [modifyNode]
  by_cases h : j = i
  · subst h
    rw [if_pos rfl]
  · rw [if_neg h]

lemma applyFormula_parent :
    ∀ (fuel : Nat) (s : EvalState) (i : Nat) (f : Formula) (j : Nat),
      ((applyFormula fuel s i f).nodeMap j).parent = (s.nodeMap j).parent := by
  intro fuel
  induction fuel with
  | zero => intro s i f j; rfl
  | succ fuel ih =>
    intro s i f j
    simp only [applyFormula]
    cases hk : (getNode s i).kind
    case leafNode =>
      cases hg : f.getFormulaOf [(getNode s i).eventName]
      case none => rfl
      case some c => exact modifyNode_condition_parent s i c j
    all_goals {
      dsimp only
      split
      case _ r hr =>
        rw [ih]
        split
        case _ l hl =>
          rw [ih]
          exact modifyNode_condition_parent s i _ j
        case _ hl =>
          exact modifyNode_condition_parent s i _ j
      case _ hr =>
        split
        case _ l hl =>
          rw [ih]
          exact modifyNode_condition_parent s i _ j
        case _ hl =>
          exact modifyNode_condition_parent s i _ j
    }

lemma applyFormula_count :
    ∀ (fuel : Nat) (s : EvalState) (i : Nat) (f : Formula),
      (applyFormula fuel s i f).count = s.count := by
  intro fuel
  induction fuel with
  | zero => intro s i f; rfl
  | succ fuel ih =>
    intro s i f
    simp only [applyFormula]
    cases hk : (getNode s i).kind
    case leafNode =>
      cases hg : f.getFormulaOf [(getNode s i).eventName]
      case none => rfl
      case some c => rfl
    all_goals {
      dsimp only
      split
      case _ r hr =>
        rw [ih]
        split
        case _ l hl => rw [ih]; rfl
        case _ hl => rfl
      case _ hr =>
        split
        case _ l hl => rw [ih]; rfl
        case _ hl => rfl
    }

lemma buildTree_fc_eq_pp (pattern : CEPPattern) (ts : TreeStruct)
    (h : pattern.negatives = []) :
    buildTree .firstChance pattern ts = buildTree .postProcessing pattern ts := by
  simp only [buildTree, createFirstChanceTree, createPostProcessingTree, h]
  simp only [fcBuildLoop, ppLoop]
  have hpar : (getNode
      (applyFormula
        ((constructTree (pattern.structOp == .seqOp) pattern.structArgs pattern.window ts none
            emptyState).1.count + 1)
        (constructTree (pattern.structOp == .seqOp) pattern.structArgs pattern.window ts none
          emptyState).1
        (constructTree (pattern.structOp == .seqOp) pattern.structArgs pattern.window ts none
          emptyState).2
        pattern.condition)
      (constructTree (pattern.structOp == .seqOp) pattern.structArgs pattern.window ts none
        emptyState).2).parent = none := by
    rw [getNode, applyFormula_parent]
    exact constructTree_parent _ _ _ _ _ _
  simp only [getRoot, getRootAux, applyFormula_count, hpar]

/-- C1 (amended): the post-processing and first-chance negation modes
produce identical runs — the same evaluation state and the same output
stream — for every pattern WITHOUT negated placeholders, every tree shape,
every stream and every fuel.  (The original claim, equality for every
pattern, is refuted by `C1_counterexample`.) -/
theorem C1_modes_agree (pattern : CEPPattern) (ts : TreeStruct)
    (events : List Event) (fuel : Nat) (h : pattern.negatives = []) :
    runCEP fuel .firstChance pattern ts events =
      runCEP fuel .postProcessing pattern ts events := by
  simp only [runCEP, buildTree_fc_eq_pp pattern ts h]

set_option maxRecDepth 10000 in
/-- Counterexample to C1 as stated: on `SEQ(NOT A, B)` with window 5 and
stream `A@0, B@3, B@7`, first-chance mode emits `[B@3]` and `[B@7]` while
post-processing mode emits only `[B@7]` — the `A@0` invalidation of `B@3`
expires at time 5 and only the first-chance tree re-admits the blocked
match; neither run raises. -/
theorem C1_counterexample :
    outputEvents (runCEP 40 .firstChance c1Pattern (.leaf 0) c1Stream).2 ≠
      outputEvents (runCEP 40 .postProcessing c1Pattern (.leaf 0) c1Stream).2 ∧
    (runCEP 40 .firstChance c1Pattern (.leaf 0) c1Stream).1.stuck = false ∧
    (runCEP 40 .postProcessing c1Pattern (.leaf 0) c1Stream).1.stuck = false := by
  decide

/-- Witness for C1 (amended): a concrete negation-free run agrees between
the two modes. -/
theorem C1_witness :
    runCEP 10 .firstChance c1WitnessPattern (.leaf 0) [evAt "B" 1 0] =
      runCEP 10 .postProcessing c1WitnessPattern (.leaf 0) [evAt "B" 1 0] :=
  C1_modes_agree c1WitnessPattern (.leaf 0) [evAt "B" 1 0] 10 rfl

lemma blankStore_kind {a b : NodeData} (h : a.blankStore = b.blankStore) :
    a.kind = b.kind := by
  have h2 := congrArg NodeData.kind h
  exact h2

lemma blankStore_parent {a b : NodeData} (h : a.blankStore = b.blankStore) :
    a.parent = b.parent := by
  have h2 := congrArg NodeData.parent h
  exact h2

lemma blankStore_left {a b : NodeData} (h : a.blankStore = b.blankStore) :
    a.left = b.left := by
  have h2 := congrArg NodeData.left h
  exact h2

lemma blankStore_right {a b : NodeData} (h : a.blankStore = b.blankStore) :
    a.right = b.right := by
  have h2 := congrArg NodeData.right h
  exact h2

lemma blankStore_window {a b : NodeData} (h : a.blankStore = b.blankStore) :
    a.slidingWindow = b.slidingWindow := by
  have h2 := congrArg NodeData.slidingWindow h
  exact h2

lemma blankStore_isFirst {a b : NodeData} (h : a.blankStore = b.blankStore) :
    a.isFirst = b.isFirst := by
  have h2 := congrArg NodeData.isFirst h
  exact h2

lemma blankStore_isLast {a b : NodeData} (h : a.blankStore = b.blankStore) :
    a.isLast = b.isLast := by
  have h2 := congrArg NodeData.isLast h
  exact h2

lemma blankStore_checkExpired {a b : NodeData} (h : a.blankStore = b.blankStore) :
    a.checkExpiredTimestamp = b.checkExpiredTimestamp := by
  have h2 := congrArg NodeData.checkExpiredTimestamp h
  exact h2

lemma sameShape_refl (s : EvalState) : SameShape s s := ⟨rfl, fun _ => rfl⟩

lemma sameShape_trans {s t u : EvalState} (h1 : SameShape s t) (h2 : SameShape t u) :
    SameShape s u := ⟨h1.1.trans h2.1, fun j => (h1.2 j).trans (h2.2 j)⟩

lemma modifyStore_blank (s : EvalState) (i : Nat) (g : List PartialMatch → List PartialMatch) (j : Nat) :
    (getNode (modifyNode s i (fun nd => { nd with partialMatches := g nd.partialMatches })) j).blankStore
      = (getNode s j).blankStore := by
  simp only [getNode, modifyNode]
  by_cases h : j = i
  · subst h
    simp [NodeData.blankStore]
  · rw [if_neg h]

lemma modifyStore_shape (s : EvalState) (i : Nat) (g : List PartialMatch → List PartialMatch) :
    SameShape s (modifyNode s i (fun nd => { nd with partialMatches := g nd.partialMatches })) :=
  ⟨rfl, fun j => (modifyStore_blank s i g j).symm⟩

lemma modifyStore_stuck (s : EvalState) (i : Nat) (g : List PartialMatch → List PartialMatch) :
    (modifyNode s i (fun nd => { nd with partialMatches := g nd.partialMatches })).stuck = s.stuck := rfl

lemma modifyStore_count (s : EvalState) (i : Nat) (g : List PartialMatch → List PartialMatch) :
    (modifyNode s i (fun nd => { nd with partialMatches := g nd.partialMatches })).count = s.count := rfl

lemma modifyStore_store_ne (s : EvalState) (i : Nat) (g : List PartialMatch → List PartialMatch)
    (j : Nat) (h : j ≠ i) :
    (getNode (modifyNode s i (fun nd => { nd with partialMatches := g nd.partialMatches })) j).partialMatches
      = (getNode s j).partialMatches := by
  simp only [getNode, modifyNode]
  rw [if_neg h]

lemma modifyStore_store_self (s : EvalState) (i : Nat) (g : List PartialMatch → List PartialMatch) :
    (getNode (modifyNode s i (fun nd => { nd with partialMatches := g nd.partialMatches })) i).partialMatches
      = g (getNode s i).partialMatches := by
  simp [getNode, modifyNode]

lemma getFirstFCNodes_congr {s t : EvalState} (h : SameShape s t) :
    ∀ (fuel : Nat) (i : Nat), getFirstFCNodes fuel s i = getFirstFCNodes fuel t i := by
  intro fuel
  induction fuel with
  | zero => intro i; rfl
  | succ fuel ih =>
    intro i
    simp only [getFirstFCNodes]
    rw [blankStore_kind (h.2 i), blankStore_isFirst (h.2 i),
        blankStore_left (h.2 i), blankStore_right (h.2 i)]
    have hrec : ∀ l, (if (getNode s l).kind ≠ NodeKind.leafNode then getFirstFCNodes fuel s l else [])
        = (if (getNode t l).kind ≠ NodeKind.leafNode then getFirstFCNodes fuel t l else []) := by
      intro l
      rw [blankStore_kind (h.2 l), ih]
    cases (getNode t i).kind <;>
      cases (getNode t i).left <;>
      cases (getNode t i).right <;>
      simp only [hrec]

lemma fcScopeList_congr {s t : EvalState} (h : SameShape s t) (nid : Nat) :
    fcScopeList s nid = fcScopeList t nid := by
  simp only [fcScopeList]
  rw [blankStore_parent (h.2 nid), h.1]
  cases (getNode t nid).parent <;>
    simp only [getFirstFCNodes_congr h]

lemma countBefore_eq_zero {l : List PartialMatch} {c : Int}
    (h : ∀ x ∈ l, c ≤ x.firstTimestamp) : countBefore l c = 0 := by
  simp only [countBefore, List.countP_eq_zero]
  intro pm hpm
  simp only [decide_eq_true_eq]
  have := h pm hpm
  omega

lemma countBefore_drop_le (l : List PartialMatch) (k : Nat) (c : Int) :
    countBefore (l.drop k) c ≤ countBefore l c :=
  List.Sublist.countP_le _ (List.drop_sublist k l)

lemma countBefore_drop_self {l : List PartialMatch} (hs : SortedByFt l) (c : Int) :
    countBefore (l.drop (countBefore l c)) c = 0 :=
  countBefore_eq_zero (fun x hx => mem_drop_countBefore_ge hs x hx)

lemma sortedByFt_drop {l : List PartialMatch} (hs : SortedByFt l) (k : Nat) :
    SortedByFt (l.drop k) :=
  List.Pairwise.sublist (List.drop_sublist k l) hs

lemma drop_countBefore_eq_filter {c : Int} :
    ∀ {l : List PartialMatch}, SortedByFt l →
      l.drop (countBefore l c) = l.filter (fun pm => decide (c ≤ pm.firstTimestamp)) := by
  intro l
  induction l with
  | nil => intro _; rfl
  | cons a t ih =>
    intro hs
    obtain ⟨ha, ht⟩ := sortedByFt_cons hs
    by_cases hc : a.firstTimestamp < c
    · have hcount : countBefore (a :: t) c = countBefore t c + 1 := by
        simp [countBefore, List.countP_cons_of_pos, hc]
      rw [hcount, List.drop_succ_cons, ih ht, List.filter_cons_of_neg]
      simp only [decide_eq_true_eq]
      omega
    · have hcount : countBefore (a :: t) c = 0 := countBefore_eq_zero (by
        intro x hx
        rcases List.mem_cons.mp hx with hx | hx
        · subst hx; omega
        · have := ha x hx; omega)
      rw [hcount, List.drop_zero, List.filter_cons_of_pos, List.filter_eq_self.mpr]
      · intro x hx
        simp only [decide_eq_true_eq]
        have := ha x hx
        omega
      · simp only [decide_eq_true_eq]
        omega

lemma countBefore_filter_ge (l : List PartialMatch) (c : Int) :
    countBefore (l.filter (fun pm => decide (c ≤ pm.firstTimestamp))) c = 0 :=
  countBefore_eq_zero (by
    intro x hx
    have := List.of_mem_filter hx
    simpa using this)

lemma sortedByFt_filter {l : List PartialMatch} (hs : SortedByFt l)
    (p : PartialMatch → Bool) : SortedByFt (l.filter p) :=
  List.Pairwise.sublist (List.filter_sublist l) hs

lemma cleanExpiredFCLoop_nil (fuel : Nat) (s : EvalState) (selfId : Nat) (ts : Int) :
    cleanExpiredFCLoop fuel s selfId ts [] = s := by
  cases fuel <;> rfl

lemma cleanExpiredUnblockLoop_nil (fuel : Nat) (s : EvalState) (selfId : Nat)
    (ts : Int) (fcId : Nat) :
    cleanExpiredUnblockLoop fuel s selfId ts fcId [] = s := by
  cases fuel <;> rfl

lemma modifyNode_id (s : EvalState) (i : Nat) {f : NodeData → NodeData}
    (h : ∀ nd, f nd = nd) : modifyNode s i f = s := by
  simp only [modifyNode, h]
  have hfun : (fun j => if j = i then s.nodeMap j else s.nodeMap j) = s.nodeMap := by
    funext j
    split <;> rfl
  rw [hfun]

lemma modifyDrop_blank (s : EvalState) (i : Nat) (n : Nat) (j : Nat) :
    (getNode (modifyNode s i (fun nd => { nd with partialMatches := nd.partialMatches.drop n })) j).blankStore
      = (getNode s j).blankStore :=
  modifyStore_blank s i (fun l => l.drop n) j

lemma modifyDrop_stuck (s : EvalState) (i : Nat) (n : Nat) :
    (modifyNode s i (fun nd => { nd with partialMatches := nd.partialMatches.drop n })).stuck
      = s.stuck := rfl

lemma modifyDrop_count (s : EvalState) (i : Nat) (n : Nat) :
    (modifyNode s i (fun nd => { nd with partialMatches := nd.partialMatches.drop n })).count
      = s.count := rfl

lemma modifyDrop_store_ne (s : EvalState) (i : Nat) (n : Nat) (j : Nat) (h : j ≠ i) :
    (getNode (modifyNode s i (fun nd => { nd with partialMatches := nd.partialMatches.drop n })) j).partialMatches
      = (getNode s j).partialMatches :=
  modifyStore_store_ne s i (fun l => l.drop n) j h

lemma modifyDrop_store_self (s : EvalState) (i : Nat) (n : Nat) :
    (getNode (modifyNode s i (fun nd => { nd with partialMatches := nd.partialMatches.drop n })) i).partialMatches
      = (getNode s i).partialMatches.drop n :=
  modifyStore_store_self s i (fun l => l.drop n)

lemma FCReady_transfer {s t : EvalState}
    (hb : ∀ j, (getNode s j).blankStore = (getNode t j).blankStore)
    (hst : ∀ j, ∃ k, (getNode t j).partialMatches = ((getNode s j).partialMatches).drop k)
    {ts : Int} {fc : Nat} (h : FCReady s ts fc) : FCReady t ts fc := by
  obtain ⟨⟨w, hw⟩, hnp, r, hr, ⟨wr, hwr⟩, hsort⟩ := h
  refine ⟨⟨w, ?_⟩, ?_, r, ?_, ⟨wr, ?_⟩, ?_⟩
  · rw [← blankStore_window (hb fc)]
    exact hw
  · rw [← blankStore_checkExpired (hb fc)]
    exact hnp
  · rw [← blankStore_right (hb fc)]
    exact hr
  · rw [← blankStore_window (hb r)]
    exact hwr
  · obtain ⟨k, hk⟩ := hst r
    rw [hk]
    exact sortedByFt_drop hsort k

/-- What one pass of the `is_first`-`FirstChanceNode` scan does when no
blocked match is pending: it never raises, touches only the right-child
stores, removes only prefixes, and leaves every scanned right store with
no element expired at its own cutoff. -/
lemma fcLoop_spec :
    ∀ (L : List Nat) (fuel : Nat) (s : EvalState) (selfId : Nat) (ts : Int),
      L.length ≤ fuel → s.stuck = false →
      (∀ fc ∈ L, FCReady s ts fc) →
      (cleanExpiredFCLoop fuel s selfId ts L).stuck = false ∧
      (cleanExpiredFCLoop fuel s selfId ts L).count = s.count ∧
      (∀ j, (getNode (cleanExpiredFCLoop fuel s selfId ts L) j).blankStore =
          (getNode s j).blankStore) ∧
      (∀ j, ∃ k, (getNode (cleanExpiredFCLoop fuel s selfId ts L) j).partialMatches =
          ((getNode s j).partialMatches).drop k) ∧
      (∀ j, (∀ fc ∈ L, (getNode s fc).right ≠ some j) →
        (getNode (cleanExpiredFCLoop fuel s selfId ts L) j).partialMatches =
          (getNode s j).partialMatches) ∧
      (∀ fc ∈ L, ∀ r wr, (getNode s fc).right = some r →
        (getNode s r).slidingWindow = some wr →
        countBefore (getNode (cleanExpiredFCLoop fuel s selfId ts L) r).partialMatches (ts - wr) = 0) := by
  intro L
  induction L with
  | nil =>
    intro fuel s selfId ts hfuel hns hready
    rw [cleanExpiredFCLoop_nil]
    refine ⟨hns, rfl, fun j => rfl, fun j => ⟨0, (List.drop_zero _).symm⟩,
      fun j _ => rfl, fun fc hfc => ?_⟩
    simp at hfc
  | cons fc rest ih =>
    intro fuel s selfId ts hfuel hns hready
    cases fuel with
    | zero => simp at hfuel
    | succ fuel =>
      obtain ⟨⟨w, hw⟩, hnp, r, hr, ⟨wr, hwr⟩, hsort⟩ := hready fc (List.mem_cons_self fc rest)
      have hfilter : ((getNode s fc).checkExpiredTimestamp.filter
          (fun p => decide (p.1 < ts))) = [] := by
        apply List.filter_eq_nil_iff.mpr
        intro e he
        simpa using hnp e he
      have hstep : cleanExpiredFCLoop (fuel + 1) s selfId ts (fc :: rest) =
          cleanExpiredFCLoop fuel
            (modifyNode s r (fun nd =>
              { nd with partialMatches :=
                  nd.partialMatches.drop (countBefore (getNode s r).partialMatches (ts - wr)) }))
            selfId ts rest := by
        simp only [cleanExpiredFCLoop, hns, Bool.false_eq_true, if_false, hw, hr, hwr,
          find_eq_countBefore hsort]
        rw [show (getNode (modifyNode s r (fun nd =>
              { nd with partialMatches :=
                  nd.partialMatches.drop (countBefore (getNode s r).partialMatches (ts - wr)) }))
            fc).checkExpiredTimestamp = (getNode s fc).checkExpiredTimestamp from
          blankStore_checkExpired (modifyDrop_blank s r _ fc), hfilter]
        rw [List.map_nil, cleanExpiredUnblockLoop_nil]
      set cnt := countBefore (getNode s r).partialMatches (ts - wr) with hcnt
      set s1 := modifyNode s r (fun nd =>
        { nd with partialMatches := nd.partialMatches.drop cnt }) with hs1
      have hblank1 : ∀ j, (getNode s j).blankStore = (getNode s1 j).blankStore :=
        fun j => (modifyDrop_blank s r cnt j).symm
      have hst1 : ∀ j, ∃ k, (getNode s1 j).partialMatches =
          ((getNode s j).partialMatches).drop k := by
        intro j
        by_cases hj : j = r
        · subst hj
          exact ⟨cnt, modifyDrop_store_self s j cnt⟩
        · exact ⟨0, by rw [modifyDrop_store_ne s r cnt j hj, List.drop_zero]⟩
      obtain ⟨ih1, ih2, ih3, ih4, ih5, ih6⟩ := ih fuel s1 selfId ts
        (by simpa using Nat.le_of_succ_le_succ hfuel)
        (by rw [hs1, modifyDrop_stuck]; exact hns)
        (fun fc' hfc' => FCReady_transfer hblank1 hst1 (hready fc' (List.mem_cons_of_mem fc hfc')))
      rw [hstep]
      refine ⟨ih1, ?_, ?_, ?_, ?_, ?_⟩
      · rw [ih2, hs1, modifyDrop_count]
      · intro j
        rw [ih3 j, ← hblank1 j]
      · intro j
        obtain ⟨k1, hk1⟩ := ih4 j
        obtain ⟨k2, hk2⟩ := hst1 j
        exact ⟨k2 + k1, by rw [hk1, hk2, List.drop_drop]⟩
      · intro j huntouched
        rw [ih5 j, hs1, modifyDrop_store_ne s r cnt j]
        · intro hjr
          exact huntouched fc (List.mem_cons_self fc rest) (by rw [hr, hjr])
        · intro fc' hfc'
          rw [← blankStore_right (hblank1 fc')]
          exact huntouched fc' (List.mem_cons_of_mem fc hfc')
      · intro fc' hfc' r' wr' hr' hwr'
        rcases List.mem_cons.mp hfc' with hfc' | hfc'
        · subst hfc'
          rw [hr] at hr'
          cases hr'
          rw [hwr] at hwr'
          cases hwr'
          have hle : countBefore (getNode (cleanExpiredFCLoop fuel s1 selfId ts rest) r).partialMatches (ts - wr) ≤
              countBefore (getNode s1 r).partialMatches (ts - wr) := by
            obtain ⟨k, hk⟩ := ih4 r
            rw [hk]
            exact countBefore_drop_le _ k _
          have hz : countBefore (getNode s1 r).partialMatches (ts - wr) = 0 := by
            rw [hs1, modifyDrop_store_self, hcnt]
            exact countBefore_drop_self hsort (ts - wr)
          omega
        · refine ih6 fc' hfc' r' wr' ?_ ?_
          · rw [← blankStore_right (hblank1 fc')]
            exact hr'
          · rw [← blankStore_window (hblank1 r')]
            exact hwr'

lemma dropZero_id :
    ∀ nd : NodeData, ({ nd with partialMatches := nd.partialMatches.drop 0 } : NodeData) = nd := by
  intro nd
  rw [List.drop_zero]

/-- A scan pass over right stores that are already clean at their cutoffs
(and have no pending blocked matches) changes nothing. -/
lemma fcLoop_stable :
    ∀ (L : List Nat) (fuel : Nat) (s : EvalState) (selfId : Nat) (ts : Int),
      L.length ≤ fuel → s.stuck = false →
      (∀ fc ∈ L, FCReady s ts fc) →
      (∀ fc ∈ L, ∀ r wr, (getNode s fc).right = some r →
        (getNode s r).slidingWindow = some wr →
        countBefore (getNode s r).partialMatches (ts - wr) = 0) →
      cleanExpiredFCLoop fuel s selfId ts L = s := by
  intro L
  induction L with
  | nil =>
    intro fuel s selfId ts _ _ _ _
    exact cleanExpiredFCLoop_nil fuel s selfId ts
  | cons fc rest ih =>
    intro fuel s selfId ts hfuel hns hready hzero
    cases fuel with
    | zero => simp at hfuel
    | succ fuel =>
      obtain ⟨⟨w, hw⟩, hnp, r, hr, ⟨wr, hwr⟩, hsort⟩ := hready fc (List.mem_cons_self fc rest)
      have hz := hzero fc (List.mem_cons_self fc rest) r wr hr hwr
      have hfilter : ((getNode s fc).checkExpiredTimestamp.filter
          (fun p => decide (p.1 < ts))) = [] := by
        apply List.filter_eq_nil_iff.mpr
        intro e he
        simpa using hnp e he
      have hstep : cleanExpiredFCLoop (fuel + 1) s selfId ts (fc :: rest) =
          cleanExpiredFCLoop fuel s selfId ts rest := by
        simp only [cleanExpiredFCLoop, hns, Bool.false_eq_true, if_false, hw, hr, hwr,
          find_eq_countBefore hsort, hz]
        rw [modifyNode_id s r dropZero_id, hfilter, List.map_nil, cleanExpiredUnblockLoop_nil]
      rw [hstep]
      exact ih fuel s selfId ts (by simpa using Nat.le_of_succ_le_succ hfuel) hns
        (fun fc' hfc' => hready fc' (List.mem_cons_of_mem fc hfc'))
        (fun fc' hfc' => hzero fc' (List.mem_cons_of_mem fc hfc'))

/-- C8 (amended): for a node that is not a trailing negation node, with a
sorted store, enough fuel for the scan, and — the restriction the original
claim misses — no `check_expired_timestamp` entry strictly below the
cutoff on any in-scope `is_first` `FirstChanceNode` (each such node having
finite windows, a sorted right store, and a right child other than this
node): with an unbounded window `clean_expired_partial_matches` is a
no-op, and with window `w` it removes from the node's own store exactly
the elements with `first_timestamp < ts - w` and is idempotent — a second
call with the same cutoff changes nothing. -/
theorem C8_expiration_amended (fuel : Nat) (s : EvalState) (selfId : Nat) (ts : Int)
    (hns : s.stuck = false)
    (hnl : ¬ (((getNode s selfId).kind = .postProcessing ∨
        (getNode s selfId).kind = .firstChance) ∧ (getNode s selfId).isLast = true))
    (hsorted : SortedByFt (getNode s selfId).partialMatches)
    (hfuel : (fcScopeList s selfId).length ≤ fuel)
    (hready : ∀ fc ∈ fcScopeList s selfId, FCReady s ts fc)
    (hnoalias : ∀ fc ∈ fcScopeList s selfId, (getNode s fc).right ≠ some selfId) :
    ((getNode s selfId).slidingWindow = none → cleanExpired (fuel + 1) s selfId ts = s) ∧
    (∀ w, (getNode s selfId).slidingWindow = some w →
      (getNode (cleanExpired (fuel + 1) s selfId ts) selfId).partialMatches =
        (getNode s selfId).partialMatches.filter
          (fun pm => decide (ts - w ≤ pm.firstTimestamp)) ∧
      cleanExpired (fuel + 1) (cleanExpired (fuel + 1) s selfId ts) selfId ts =
        cleanExpired (fuel + 1) s selfId ts) := by
  constructor
  · intro hw
    simp only [cleanExpired, hns, Bool.false_eq_true, if_false, hw]
  · intro w hw
    have hstep1 : cleanExpired (fuel + 1) s selfId ts =
        cleanExpiredFCLoop fuel
          (modifyNode s selfId (fun nd =>
            { nd with partialMatches :=
                nd.partialMatches.drop (countBefore (getNode s selfId).partialMatches (ts - w)) }))
          selfId ts
          (fcScopeList (modifyNode s selfId (fun nd =>
            { nd with partialMatches :=
                nd.partialMatches.drop (countBefore (getNode s selfId).partialMatches (ts - w)) }))
            selfId) := by
      simp only [cleanExpired, hns, Bool.false_eq_true, if_false, hw,
        find_eq_countBefore hsorted]
      rw [if_neg hnl]
      simp only [modifyDrop_stuck, hns, Bool.false_eq_true, if_false]
    set cnt := countBefore (getNode s selfId).partialMatches (ts - w) with hcnt
    set s1 := modifyNode s selfId (fun nd =>
      { nd with partialMatches := nd.partialMatches.drop cnt }) with hs1
    have hshape1 : SameShape s s1 := ⟨rfl, fun j => (modifyDrop_blank s selfId cnt j).symm⟩
    have hscope1 : fcScopeList s1 selfId = fcScopeList s selfId :=
      (fcScopeList_congr hshape1 selfId).symm
    rw [hscope1] at hstep1
    have hblank1 : ∀ j, (getNode s j).blankStore = (getNode s1 j).blankStore :=
      fun j => (modifyDrop_blank s selfId cnt j).symm
    have hst1 : ∀ j, ∃ k, (getNode s1 j).partialMatches =
        ((getNode s j).partialMatches).drop k := by
      intro j
      by_cases hj : j = selfId
      · subst hj
        exact ⟨cnt, modifyDrop_store_self s j cnt⟩
      · exact ⟨0, by rw [modifyDrop_store_ne s selfId cnt j hj, List.drop_zero]⟩
    have hns1 : s1.stuck = false := by
      rw [hs1, modifyDrop_stuck]
      exact hns
    obtain ⟨l1, l2, l3, l4, l5, l6⟩ := fcLoop_spec (fcScopeList s selfId) fuel s1 selfId ts
      hfuel hns1
      (fun fc hfc => FCReady_transfer hblank1 hst1 (hready fc hfc))
    set s2 := cleanExpiredFCLoop fuel s1 selfId ts (fcScopeList s selfId) with hs2
    have hb2 : ∀ j, (getNode s2 j).blankStore = (getNode s j).blankStore :=
      fun j => (l3 j).trans (hblank1 j).symm
    have hst2 : ∀ j, ∃ k, (getNode s2 j).partialMatches =
        ((getNode s j).partialMatches).drop k := by
      intro j
      obtain ⟨k1, hk1⟩ := l4 j
      obtain ⟨k2, hk2⟩ := hst1 j
      exact ⟨k2 + k1, by rw [hk1, hk2, List.drop_drop]⟩
    have hcount2 : s2.count = s.count := by
      rw [hs2, l2, hs1, modifyDrop_count]
    have hshape2 : SameShape s s2 := ⟨hcount2.symm, fun j => (hb2 j).symm⟩
    have hstore2self : (getNode s2 selfId).partialMatches =
        (getNode s selfId).partialMatches.filter
          (fun pm => decide (ts - w ≤ pm.firstTimestamp)) := by
      rw [hs2, l5 selfId ?hna, hs1, modifyDrop_store_self, hcnt,
        drop_countBefore_eq_filter hsorted]
      case hna =>
        intro fc hfc
        rw [← blankStore_right (hblank1 fc)]
        exact hnoalias fc hfc
    refine ⟨by rw [hstep1]; exact hstore2self, ?_⟩
    rw [hstep1]
    have hw2 : (getNode s2 selfId).slidingWindow = some w := by
      rw [blankStore_window (hb2 selfId)]
      exact hw
    have hsort2 : SortedByFt (getNode s2 selfId).partialMatches := by
      rw [hstore2self]
      exact sortedByFt_filter hsorted _
    have hcb2 : countBefore (getNode s2 selfId).partialMatches (ts - w) = 0 := by
      rw [hstore2self]
      exact countBefore_filter_ge _ _
    have hnl2 : ¬ (((getNode s2 selfId).kind = .postProcessing ∨
        (getNode s2 selfId).kind = .firstChance) ∧ (getNode s2 selfId).isLast = true) := by
      rw [blankStore_kind (hb2 selfId), blankStore_isLast (hb2 selfId)]
      exact hnl
    have hscope2 : fcScopeList s2 selfId = fcScopeList s selfId :=
      (fcScopeList_congr hshape2 selfId).symm
    have hstep2 : cleanExpired (fuel + 1) s2 selfId ts =
        cleanExpiredFCLoop fuel s2 selfId ts (fcScopeList s selfId) := by
      simp only [cleanExpired, l1, Bool.false_eq_true, if_false, hw2,
        find_eq_countBefore hsort2, hcb2]
      rw [modifyNode_id s2 selfId dropZero_id]
      rw [if_neg hnl2]
      simp only [l1, Bool.false_eq_true, if_false]
      rw [hscope2]
    rw [hstep2]
    apply fcLoop_stable (fcScopeList s selfId) fuel s2 selfId ts hfuel l1
      (fun fc hfc => FCReady_transfer (fun j => (hb2 j).symm) hst2 (hready fc hfc))
    intro fc hfc r wr hr hwr
    have hr' : (getNode s1 fc).right = some r := by
      rw [← blankStore_right (l3 fc), hr]
    have hwr' : (getNode s1 r).slidingWindow = some wr := by
      rw [← blankStore_window (l3 r), hwr]
    exact l6 fc hfc r wr hr' hwr'

set_option maxRecDepth 10000 in
/-- Counterexample to C8 as stated: expiring the `FirstChanceNode` (id 1,
window 5) at cutoff 9 re-admits the blocked `B@3` into its own store —
a match with `first_timestamp 3 < 9 - 5` survives the call, violating
exact prefix removal — and a second identical call removes it, violating
idempotence; no call raises. -/
theorem C8_counterexample :
    observables (cleanExpired 20 (cleanExpired 20 c8RunState 1 9) 1 9) ≠
      observables (cleanExpired 20 c8RunState 1 9) ∧
    (cleanExpired 20 (cleanExpired 20 c8RunState 1 9) 1 9).stuck = false ∧
    (getNode c8RunState 1).slidingWindow = some 5 ∧
    (getNode (cleanExpired 20 c8RunState 1 9) 1).partialMatches =
      [mkPartialMatch [evAt "B" 3 0]] := by
  decide

/-- Witness for C8 (amended): on a leaf with window 5 and matches at
times 0 and 7, expiring at cutoff 9 keeps exactly the match at 7 and a
second call changes nothing. -/
theorem C8_witness :
    (getNode (cleanExpired (3 + 1) c8WitnessState 0 9) 0).partialMatches =
      (getNode c8WitnessState 0).partialMatches.filter
        (fun pm => decide ((9 : Int) - 5 ≤ pm.firstTimestamp)) ∧
    cleanExpired (3 + 1) (cleanExpired (3 + 1) c8WitnessState 0 9) 0 9 =
      cleanExpired (3 + 1) c8WitnessState 0 9 :=
  (C8_expiration_amended 3 c8WitnessState 0 9 rfl (by decide) (by decide)
    (by decide)
    (fun fc hfc => absurd hfc (List.not_mem_nil fc))
    (fun fc hfc => absurd hfc (List.not_mem_nil fc))).2 5 rfl

end OpenCEP
